import Mathlib

set_option linter.unusedVariables false

namespace Zoya

/-!
Shallow embedding of the Task Lifecycle Engine of the Zoya repository:
the descriptor store and state transitions of `src/orchestrator.py`, the retry /
alert / component-health / offline-queue machinery of `src/error_recovery.py`,
and the bounded re-drive loop of `src/ralph_wiggum.py`.

File text is modelled at line granularity: a file is a `List Line`, a `Line` is
its list of characters.  The frontmatter regex `^---\s*\n(.*?)\n---` of
`orchestrator.py` is rendered at that granularity: the block opens when the
first line is `---` followed only by whitespace and closes at the first later
line starting with `---`.
-/

/-- Characters of one line of a text file. -/
abbrev Line := List Char

/-- Python whitespace test used by str.strip. -/
abbrev isWS : Char → Bool := Char.isWhitespace

/-- Python str.strip(): remove leading and trailing whitespace. -/
def stripL (l : Line) : Line := ((l.dropWhile isWS).reverse.dropWhile isWS).reverse

/-- Python line.partition(":") restricted to the case used: split a line at its
first colon, `none` when the line has no colon. -/
def splitColon : Line → Option (Line × Line)
  | [] => none
  | c :: cs =>
    if c = ':' then some ([], cs)
    else (splitColon cs).map (fun p => (c :: p.1, p.2))

/-- Python dict assignment `d[k] = v`: overwrite an existing binding in place,
otherwise append the new binding. -/
def dictInsert {β : Type} : List (Line × β) → Line → β → List (Line × β)
  | [], k, v => [(k, v)]
  | (k1, v1) :: d, k, v =>
    if k1 = k then (k, v) :: d else (k1, v1) :: dictInsert d k v

/-- Python `d.get(k)`. -/
def dictGet {β : Type} (d : List (Line × β)) (k : Line) : Option β :=
  (d.find? (fun p => p.1 == k)).map (fun p => p.2)

/-- Parsed frontmatter: an insertion-ordered key/value dictionary. -/
abbrev FM := List (Line × Line)

/-- One line of the frontmatter body, from `_read_frontmatter`:
`if ":" in line: fm[key.strip()] = value.strip()`. -/
def parseFMLine (d : FM) (line : Line) : FM :=
  match splitColon line with
  | none => d
  | some (k, v) => dictInsert d (stripL k) (stripL v)

/-- The dictionary built from the frontmatter body lines. -/
def fmOfLines (ls : List Line) : FM := ls.foldl parseFMLine []

/-- The delimiter `---`. -/
def dashes : Line := ['-', '-', '-']

/-- Opening delimiter of `^---\s*\n`: the line is `---` followed only by whitespace. -/
def isOpen (l : Line) : Bool := (l.take 3 == dashes) && (stripL (l.drop 3)).isEmpty

/-- Closing delimiter `\n---`: a line starting with `---`. -/
def isClose (l : Line) : Bool := l.take 3 == dashes

/-- Scan for the first closing line: (lines before it, the closing line, lines after it). -/
def splitAtClose : List Line → Option (List Line × Line × List Line)
  | [] => none
  | l :: ls =>
    if isClose l then some ([], l, ls)
    else (splitAtClose ls).map (fun p => (l :: p.1, p.2.1, p.2.2))

/-- `re.search(r"^---\s*\n(.*?)\n---", text, re.DOTALL)` at line granularity:
the frontmatter block of a file, when present. -/
def matchFM (content : List Line) : Option (List Line × Line × List Line) :=
  match content with
  | [] => none
  | first :: rest => if isOpen first then splitAtClose rest else none

/-- `_read_frontmatter`: parse the frontmatter, empty dictionary when no block matches. -/
def read_frontmatter (content : List Line) : FM :=
  match matchFM content with
  | none => []
  | some (fl, _, _) => fmOfLines fl

/-- `line.partition(":")[0].strip()` when the line contains a colon. -/
def keyOfLine (line : Line) : Option Line :=
  (splitColon line).map (fun p => stripL p.1)

/-- One line of `_update_frontmatter`'s rewrite loop: a line whose key is among the
updates is replaced by `key: value`; the second component reports the updated key. -/
def rewriteLine (updates : FM) (line : Line) : Line × Option Line :=
  match keyOfLine line with
  | some k =>
    match dictGet updates k with
    | some v => (k ++ (": ").toList ++ v, some k)
    | none => (line, none)
  | none => (line, none)

/-- `_update_frontmatter`'s rewrite loop over the block lines; also collects the
set `updated_keys`. -/
def rewriteLines (updates : FM) : List Line → List Line × List Line
  | [] => ([], [])
  | l :: ls =>
    let rest := rewriteLines updates ls
    match rewriteLine updates l with
    | (l1, some k) => (l1 :: rest.1, k :: rest.2)
    | (l1, none) => (l1 :: rest.1, rest.2)

/-- `_update_frontmatter`: rewrite the keys already present, append the missing keys,
and return the file unchanged when no frontmatter block matches. -/
def update_frontmatter (content : List Line) (updates : FM) : List Line :=
  match matchFM content with
  | none => content
  | some (fl, cl, rest) =>
    let rw := rewriteLines updates fl
    let extras := (updates.filter (fun kv => !(rw.2.contains kv.1))).map
      (fun kv => kv.1 ++ (": ").toList ++ kv.2)
    dashes :: (rw.1 ++ extras) ++ (dashes ++ cl.drop 3) :: rest

/-- Value of an unsigned decimal numeral. -/
def digitsVal (l : Line) : Nat :=
  l.foldl (fun n c => n * 10 + (c.toNat - ('0').toNat)) 0

/-- All-digit, non-empty numeral. -/
def parseDigits (l : Line) : Option Nat :=
  if !l.isEmpty && l.all Char.isDigit then some (digitsVal l) else none

/-- Python `int(s)` on an optionally signed decimal string (surrounding whitespace
is stripped); `none` models the ValueError raised on malformed input. -/
def parsePyInt (l : Line) : Option Int :=
  match stripL l with
  | '-' :: rest => (parseDigits rest).map (fun n => -(n : Int))
  | '+' :: rest => (parseDigits rest).map (fun n => (n : Int))
  | t => (parseDigits t).map (fun n => (n : Int))

/-- The state directories of the vault (`src/config.py`). -/
inductive Dir
  | needsAction
  | inProgress
  | pendingApproval
  | approved
  | rejected
  | done
  | quarantine
deriving DecidableEq

/-- `MAX_RETRIES` from `src/config.py` line 49. -/
def MAX_RETRIES : Int := 3

/-- Outcome of one state-transition helper: where the descriptor was moved, its
content after the helper's `_update_frontmatter` call, and where the companion
payload was moved when one exists. -/
structure MoveResult where
  dest : Dir
  newContent : List Line
  companionDest : Option Dir
deriving DecidableEq

/-- `claim_file`: move metadata + companion from Needs_Action to In_Progress,
then set `status: in_progress` in the relocated file. -/
def claim_file (content : List Line) (hasCompanion : Bool) : MoveResult :=
  { dest := Dir.inProgress
    newContent := update_frontmatter content [(("status").toList, ("in_progress").toList)]
    companionDest := if hasCompanion then some Dir.inProgress else none }

/-- `move_to_done`: move processed files from In_Progress to Done, writing
`status: done` and `processed_at`. -/
def move_to_done (content : List Line) (hasCompanion : Bool) (now : Line) : MoveResult :=
  { dest := Dir.done
    newContent := update_frontmatter content
      [(("status").toList, ("done").toList), (("processed_at").toList, now)]
    companionDest := if hasCompanion then some Dir.done else none }

/-- `handle_failure`: increment the retry count or quarantine after max retries.
`none` models the ValueError of `int(...)` on an unparsable `retry_count`. -/
def handle_failure (content : List Line) (hasCompanion : Bool) : Option MoveResult :=
  let fm := read_frontmatter content
  match parsePyInt ((dictGet fm (("retry_count").toList)).getD (("0").toList)) with
  | none => none
  | some rc =>
    let retry_count := rc + 1
    if MAX_RETRIES ≤ retry_count then
      some { dest := Dir.quarantine
             newContent := update_frontmatter content
               [(("status").toList, ("quarantined").toList),
                (("reason").toList, ("Failed after 3 attempts").toList)]
             companionDest := if hasCompanion then some Dir.quarantine else none }
    else
      some { dest := Dir.needsAction
             newContent := update_frontmatter content
               [(("status").toList, ("pending").toList),
                (("retry_count").toList, (toString retry_count).toList)]
             companionDest := if hasCompanion then some Dir.needsAction else none }

/-- `route_to_approval`: move files from In_Progress to Pending_Approval, writing
`status: pending_approval` and `approval_requested_at`. -/
def route_to_approval (content : List Line) (hasCompanion : Bool) (now : Line) : MoveResult :=
  { dest := Dir.pendingApproval
    newContent := update_frontmatter content
      [(("status").toList, ("pending_approval").toList),
       (("approval_requested_at").toList, now)]
    companionDest := if hasCompanion then some Dir.pendingApproval else none }

/-- Python str.lower() on a line. -/
def lowerL (l : Line) : Line := l.map Char.toLower

/-- `evaluate_hitl`: does a processed file need HITL approval before completion?
Reads the descriptor as left by the processor. -/
def evaluate_hitl (content : List Line) : Bool :=
  let fm := read_frontmatter content
  let doc_type := lowerL ((dictGet fm (("type").toList)).getD [])
  let priority := (dictGet fm (("priority").toList)).getD (("low").toList)
  let source := (dictGet fm (("source").toList)).getD (("file_drop").toList)
  if dictGet fm (("approval_required").toList) == some (("true").toList) then true
  else if (doc_type == ("invoice").toList || doc_type == ("contract").toList) &&
      priority == ("high").toList then true
  else if source == ("gmail").toList && priority == ("high").toList then true
  else if doc_type == ("linkedin_post").toList then true
  else false

/-- The success branch of `run_cycle` (orchestrator.py lines 818-824): after
processing succeeds, the HITL check on the re-read descriptor decides between
Pending_Approval and Done. -/
def run_cycle_success (content : List Line) (hasCompanion : Bool) (now : Line) : MoveResult :=
  if evaluate_hitl content then route_to_approval content hasCompanion now
  else move_to_done content hasCompanion now

/-- A task while the orchestrator handles it: which state directory holds the
descriptor, and the descriptor's content. -/
structure TaskSt where
  loc : Dir
  content : List Line
deriving DecidableEq

/-- One `run_cycle` handling of a pending task: claim it, invoke the backend
(`none` = processing failed, the descriptor stays as claimed; `some c` = the
backend rewrote the descriptor to `c`), then finish via HITL/Done, or hand the
failure to `handle_failure`. -/
def cycleStep (attempt : Option (List Line)) (now : Line) (st : TaskSt) : Option TaskSt :=
  let claimed := claim_file st.content false
  match attempt with
  | some c =>
    let r := run_cycle_success c false now
    some { loc := r.dest, content := r.newContent }
  | none =>
    match handle_failure claimed.newContent false with
    | none => none
    | some r => some { loc := r.dest, content := r.newContent }

/-- Iterated orchestrator cycles over a task: each attempt is handled only while
the descriptor is still in the Needs_Action directory with a pending status. -/
def lifecycle (now : Line) : List (Option (List Line)) → Option TaskSt → Option TaskSt
  | _, none => none
  | [], some st => some st
  | a :: as, some st =>
    if st.loc = Dir.needsAction then lifecycle now as (cycleStep a now st)
    else some st

-- ---------------------------------------------------------------------------
-- error_recovery.py
-- ---------------------------------------------------------------------------

/-- Is `needle` a prefix of the second list? -/
def isPrefixL : Line → Line → Bool
  | [], _ => true
  | _ :: _, [] => false
  | a :: as, b :: bs => (a == b) && isPrefixL as bs

/-- Python substring test `needle in hay`. -/
def containsSubL (needle : Line) : Line → Bool
  | [] => needle.isEmpty
  | c :: rest => isPrefixL needle (c :: rest) || containsSubL needle rest

/-- Does any of the keyword substrings occur in the message? -/
def anyKw (kws : List String) (msg : Line) : Bool :=
  kws.any (fun kw => containsSubL kw.toList msg)

/-- `ErrorCategory` from error_recovery.py. -/
inductive ErrorCategory
  | transient
  | rate_limit
  | auth
  | payment
  | permanent
  | component
deriving DecidableEq

/-- `classify_error`: map an exception message onto an `ErrorCategory` by the
known substring patterns, checked in source order on the lowercased message. -/
def classify_error (excMsg : Line) : ErrorCategory :=
  let msg := lowerL excMsg
  if anyKw ["401", "403", "unauthorized", "forbidden", "invalid credentials",
      "token expired", "authenticationerror"] msg then ErrorCategory.auth
  else if anyKw ["429", "rate limit", "too many requests", "ratelimit",
      "quota exceeded"] msg then ErrorCategory.rate_limit
  else if anyKw ["payment", "invoice", "charge", "debit", "transfer",
      "transaction failed"] msg then ErrorCategory.payment
  else if anyKw ["400", "bad request", "invalid parameter", "schema",
      "validation error"] msg then ErrorCategory.permanent
  else if anyKw ["503", "service unavailable", "connection refused",
      "connection reset", "no route to host", "name or service not known",
      "eof occurred"] msg then ErrorCategory.component
  else ErrorCategory.transient

/-- One entry of `RETRY_CONFIG`. -/
structure RetryCfg where
  max_attempts : Nat
  base_delay : ℚ
  max_delay : ℚ
  jitter : Bool
deriving DecidableEq

/-- `RETRY_CONFIG`: the fixed retry policy per error category. -/
def RETRY_CONFIG : ErrorCategory → RetryCfg
  | ErrorCategory.transient => ⟨5, 2, 60, true⟩
  | ErrorCategory.rate_limit => ⟨4, 30, 300, true⟩
  | ErrorCategory.auth => ⟨1, 0, 0, false⟩
  | ErrorCategory.payment => ⟨1, 0, 0, false⟩
  | ErrorCategory.permanent => ⟨1, 0, 0, false⟩
  | ErrorCategory.component => ⟨3, 10, 120, true⟩

/-- An alert artifact file: which state directory it is written into, its
filename tag, and the sanitised component name embedded in the filename. -/
structure AlertFile where
  dir : Dir
  tag : Line
  component : Line
deriving DecidableEq

/-- `"".join(c if c.isalnum() else "_" for c in component)[:30]`. -/
def safeComp (component : Line) : Line :=
  (component.map (fun c => if c.isAlphanum then c else '_')).take 30

/-- `_create_payment_error_alert`: writes `PAYMENT_ERROR_<comp>_<ts>.md` into
Pending_Approval/, requiring fresh human approval. -/
def _create_payment_error_alert (component : Line) : AlertFile :=
  { dir := Dir.pendingApproval
    tag := ("PAYMENT_ERROR_").toList
    component := safeComp component }

/-- `handle_auth_error`: writes `ALERT_auth_error_<comp>_<ts>.md` into
Needs_Action/ and pauses the integration. -/
def handle_auth_error (component : Line) : AlertFile :=
  { dir := Dir.needsAction
    tag := ("ALERT_auth_error_").toList
    component := safeComp component }

/-- Result of one invocation of the wrapped callable inside `with_retry`. -/
inductive CallOutcome
  | ok (v : Line)
  | exn (msg : Line)
deriving DecidableEq

/-- Observable side effects of `with_retry`: alert files written and sleeps
performed (attempt number, delay before jitter, delay actually slept). -/
inductive RetryEffect
  | alert (f : AlertFile)
  | sleep (attempt : Nat) (raw : ℚ) (slept : ℚ)
deriving DecidableEq

/-- How a `with_retry` call ends. -/
inductive RetryOutcome
  | returned (v : Line)
  | raisedPayment
  | raisedAuth
  | raisedLast (msg : Line)
  | raisedExhausted
deriving DecidableEq

/-- Trace of one `with_retry` call. -/
structure RetryResult where
  invocations : Nat
  effects : List RetryEffect
  outcome : RetryOutcome
deriving DecidableEq

/-- The retry loop of `with_retry` (`for attempt in range(1, 10)`), from the given
attempt number with the given remaining loop range; `behave n` is the outcome of
the n-th invocation of the wrapped callable and `rand n` the value of
`random.random()` when sleeping after attempt n. -/
def withRetryAux (category : Option ErrorCategory) (component : Line)
    (behave : Nat → CallOutcome) (rand : Nat → ℚ) : Nat → Nat → RetryResult
  | _, 0 => ⟨0, [], RetryOutcome.raisedExhausted⟩
  | attempt, fuel + 1 =>
    match behave attempt with
    | CallOutcome.ok v => ⟨1, [], RetryOutcome.returned v⟩
    | CallOutcome.exn e =>
      let cat := category.getD (classify_error e)
      let cfg := RETRY_CONFIG cat
      if cat = ErrorCategory.payment then
        ⟨1, [RetryEffect.alert (_create_payment_error_alert component)],
          RetryOutcome.raisedPayment⟩
      else if cat = ErrorCategory.auth then
        ⟨1, [RetryEffect.alert (handle_auth_error component)], RetryOutcome.raisedAuth⟩
      else if cfg.max_attempts ≤ attempt then ⟨1, [], RetryOutcome.raisedLast e⟩
      else
        let raw := min (cfg.base_delay * 2 ^ (attempt - 1)) cfg.max_delay
        let slept := if cfg.jitter then raw * (1 / 2 + rand attempt * (1 / 2)) else raw
        let rest := withRetryAux category component behave rand (attempt + 1) fuel
        ⟨rest.invocations + 1, RetryEffect.sleep attempt raw slept :: rest.effects,
          rest.outcome⟩

/-- `with_retry`: execute the callable with exponential backoff, starting at
attempt 1 with the source's safety ceiling of 9 loop iterations. -/
def with_retry (category : Option ErrorCategory) (component : Line)
    (behave : Nat → CallOutcome) (rand : Nat → ℚ) : RetryResult :=
  withRetryAux category component behave rand 1 9

/-- One `ComponentHealth._status` record. Each `mark_*` call replaces the whole
record, so absent fields are `none`. -/
structure HealthRec where
  status : Line
  consecutive_failures : Nat
  last_healthy : Option Line
  last_failure : Option Line
  last_error : Option Line
deriving DecidableEq

/-- The class-level shared `ComponentHealth._status` dictionary. -/
abbrev HMap := List (Line × HealthRec)

namespace ComponentHealth

/-- `ComponentHealth.mark_healthy`: reset the component to healthy; the Bool
reports whether a `component_recovered` event was logged (it was previously down). -/
def mark_healthy (m : HMap) (component : Line) (now : Line) : HMap × Bool :=
  let was_down := (dictGet m component).map (fun r => r.status) == some (("down").toList)
  (dictInsert m component
    { status := ("healthy").toList
      consecutive_failures := 0
      last_healthy := some now
      last_failure := none
      last_error := none }, was_down)

/-- `ComponentHealth.mark_failure`: bump the consecutive-failure counter, set the
status to down at 3 or more failures and degraded below; the Bool reports
whether `_create_component_alert` was called (exactly at the third failure). -/
def mark_failure (m : HMap) (component : Line) (excMsg : Line) (now : Line) :
    HMap × Bool :=
  let failures := ((dictGet m component).map
    (fun r => r.consecutive_failures)).getD 0 + 1
  (dictInsert m component
    { status := if 3 ≤ failures then ("down").toList else ("degraded").toList
      consecutive_failures := failures
      last_healthy := none
      last_failure := some now
      last_error := some (excMsg.take 200) }, failures = 3)

end ComponentHealth

/-- A success or failure event reported to the health tracker. -/
inductive HEvent
  | failure (excMsg : Line)
  | success
deriving DecidableEq

/-- Run a sequence of events for one component, counting component-down alerts
and recovery events. -/
def runHealth (component : Line) (now : Line) : List HEvent → HMap → HMap × Nat × Nat
  | [], m => (m, 0, 0)
  | e :: es, m =>
    match e with
    | HEvent.failure msg =>
      let r := ComponentHealth.mark_failure m component msg now
      let rest := runHealth component now es r.1
      (rest.1, rest.2.1 + (if r.2 then 1 else 0), rest.2.2)
    | HEvent.success =>
      let r := ComponentHealth.mark_healthy m component now
      let rest := runHealth component now es r.1
      (rest.1, rest.2.1, rest.2.2 + (if r.2 then 1 else 0))

-- ---------------------------------------------------------------------------
-- Offline queue (error_recovery.py)
-- ---------------------------------------------------------------------------

/-- What reading one persisted queue file yields: unparsable JSON, a JSON object
without a `payload` key, or the payload itself. -/
inductive ItemRead
  | badJson
  | noPayload
  | payload (p : Line)
deriving DecidableEq

/-- One persisted offline-queue file. -/
structure QItem where
  name : Line
  read : ItemRead
deriving DecidableEq

/-- Code-point lexicographic order on filenames (Python string sort). -/
def lexLe : Line → Line → Bool
  | [], _ => true
  | _ :: _, [] => false
  | c :: cs, d :: ds => if c = d then lexLe cs ds else decide (c < d)

/-- The relation `sorted(...)` sorts queue files by. -/
def nameLe (a b : QItem) : Prop := lexLe a.name b.name = true

instance : DecidableRel nameLe := fun a b => by unfold nameLe; infer_instance

/-- `sorted(queue_path.glob("QUEUED_*.json"))`. -/
def sortByName (items : List QItem) : List QItem := List.insertionSort nameLe items

/-- Result of `flush_offline_queue`: the returned pair, the files surviving on
disk, and the payloads handed to the handler in visit order. -/
structure FlushResult where
  success : Nat
  failure : Nat
  remaining : List QItem
  invoked : List Line
deriving DecidableEq

/-- The per-file loop body of `flush_offline_queue`: unparsable files are
skipped and kept, a handler returning True deletes the file, a handler
returning False or raising (including a missing `payload` key) keeps it and
counts a failure. -/
def flushItems (handler : Line → Option Bool) : List QItem → FlushResult
  | [] => ⟨0, 0, [], []⟩
  | it :: its =>
    let rest := flushItems handler its
    match it.read with
    | ItemRead.badJson => { rest with remaining := it :: rest.remaining }
    | ItemRead.noPayload =>
      { rest with failure := rest.failure + 1, remaining := it :: rest.remaining }
    | ItemRead.payload p =>
      match handler p with
      | some true =>
        { rest with success := rest.success + 1, invoked := p :: rest.invoked }
      | some false =>
        { rest with
            failure := rest.failure + 1
            remaining := it :: rest.remaining
            invoked := p :: rest.invoked }
      | none =>
        { rest with
            failure := rest.failure + 1
            remaining := it :: rest.remaining
            invoked := p :: rest.invoked }

/-- `flush_offline_queue`: replay queued items for a component oldest-first;
`(0, 0)` and no changes when the queue directory does not exist. -/
def flush_offline_queue (dirExists : Bool) (items : List QItem)
    (handler : Line → Option Bool) : FlushResult :=
  if !dirExists then ⟨0, 0, items, []⟩
  else flushItems handler (sortByName items)

-- ---------------------------------------------------------------------------
-- ralph_wiggum.py
-- ---------------------------------------------------------------------------

/-- `MAX_ITERATIONS_BY_TYPE`. -/
def MAX_ITERATIONS_BY_TYPE : List (Line × Nat) :=
  [(("email_processing").toList, 5),
   (("invoice_generation").toList, 3),
   (("social_media_posting").toList, 3),
   (("weekly_audit").toList, 10),
   (("default").toList, 5)]

/-- `max_iterations or MAX_ITERATIONS_BY_TYPE.get(task_type, 5)`: a passed value
of `None` (or the falsy 0) falls back to the per-type default. -/
def ralphMaxIters (max_iterations : Option Nat) (task_type : Line) : Nat :=
  match max_iterations with
  | some (n + 1) => n + 1
  | _ => (dictGet MAX_ITERATIONS_BY_TYPE task_type).getD 5

/-- The persisted per-task state records under `.ralph_state/`, keyed by task id
and projected to the `current_iteration` field the resume question is about. -/
abbrev RalphStore := List (Line × Nat)

/-- `_load_state`: read the persisted record for a task id, `None` when absent. -/
def _load_state (store : RalphStore) (task_id : Line) : Option Nat :=
  dictGet store task_id

/-- `_output_contains_promise`: case-insensitive substring test of the
completion promise against the invocation output. -/
def _output_contains_promise (output promise : Line) : Bool :=
  containsSubL (lowerL promise) (lowerL output)

/-- `_file_moved_to_done`: does the watch glob match anything. -/
def _file_moved_to_done (globMatches : List Line) : Bool := !globMatches.isEmpty

/-- `_check_completion`: promise match or watch-glob match. -/
def _check_completion (output promise : Line) (watch_glob : Option Line)
    (globMatches : List Line) : Bool :=
  (!promise.isEmpty && _output_contains_promise output promise) ||
  (watch_glob.isSome && _file_moved_to_done globMatches)

/-- The loop-carried state of `run_ralph_loop`: number of backend invocations,
the `current_iteration` values written by each `_save_state` call, the current
iteration, whether the loop broke on completion, and the last output. -/
structure LoopSt where
  invocations : Nat
  saved : List Nat
  curIter : Nat
  completed : Bool
  lastOutput : Line
deriving DecidableEq

/-- One iteration of the Ralph Wiggum loop: persist the state, invoke the
backend, test completion; after the loop has broken, remaining iterations do
nothing. -/
def ralphStep (invoke : Nat → Bool × Line) (promise : Line)
    (watch_glob : Option Line) (globState : Nat → List Line)
    (s : LoopSt) (iteration : Nat) : LoopSt :=
  if s.completed then s
  else
    let s1 := { s with curIter := iteration, saved := s.saved ++ [iteration] }
    let r := invoke iteration
    let s2 := { s1 with invocations := s1.invocations + 1, lastOutput := r.2 }
    if _check_completion r.2 promise watch_glob (globState iteration) then
      { s2 with completed := true }
    else s2

/-- What `run_ralph_loop` returns and leaves behind: the result dict fields,
whether `_create_ralph_exhausted_alert` wrote an alert, and whether
`_cleanup_state` deleted the persisted record. -/
structure RalphResult where
  invocations : Nat
  saved : List Nat
  status : Line
  iterations_used : Nat
  completed : Bool
  alertCreated : Bool
  stateDeleted : Bool
  output : Line
deriving DecidableEq

/-- `run_ralph_loop`: save the fresh state (iteration 0), run iterations
1..max_iters until the completion check is satisfied, then finalise: delete the
state on completion, or keep it and write one exhaustion alert. -/
def run_ralph_loop (invoke : Nat → Bool × Line) (promise : Line)
    (watch_glob : Option Line) (globState : Nat → List Line)
    (max_iterations : Option Nat) (task_type : Line) : RalphResult :=
  let max_iters := ralphMaxIters max_iterations task_type
  let init : LoopSt := ⟨0, [0], 0, false, []⟩
  let fin := (List.range' 1 max_iters).foldl
    (ralphStep invoke promise watch_glob globState) init
  let final_status :=
    if fin.completed then ("completed").toList else ("max_iterations_reached").toList
  { invocations := fin.invocations
    saved := fin.saved ++ [fin.curIter]
    status := final_status
    iterations_used := fin.curIter
    completed := fin.completed
    alertCreated := !fin.completed
    stateDeleted := fin.completed
    output := fin.lastOutput.take 2000 }

/-- The per-file decision of `check_and_trigger_for_stuck`: a file is re-driven
only when it is stale and no `.ralph_state` record for it exists; an existing
record makes the orchestrator skip the file instead of resuming its loop. -/
def stuckTrigger (isStale : Bool) (hasStateRecord : Bool) : Bool :=
  if !isStale then false
  else if hasStateRecord then false
  else true

-- ---------------------------------------------------------------------------
-- Claim-by-move concurrency model (orchestrator.py claim_file)
-- ---------------------------------------------------------------------------

/-- The shared filesystem as the claim race sees it: names of descriptors in
Needs_Action and in In_Progress. -/
structure ClaimFS where
  avail : List Line
  owned : List Line
deriving DecidableEq

/-- Result of one `shutil.move` out of Needs_Action. -/
inductive RenameResult
  | ok
  | notFound
deriving DecidableEq

/-- One atomic rename: move `name` from the available to the owned directory,
or fail with a not-found error when it is no longer there.  This is the single
operation `claim_file` performs on the descriptor; no lock file is involved. -/
def renameStep (name : Line) (fs : ClaimFS) : RenameResult × ClaimFS :=
  if name ∈ fs.avail then
    (RenameResult.ok, ⟨fs.avail.erase name, name :: fs.owned⟩)
  else (RenameResult.notFound, fs)

/-- Two concurrent claim attempts on the same task id: the schedule decides
which process's rename executes first, the other's executes second on the
resulting filesystem. -/
def claimRace (name : Line) (fs : ClaimFS) (firstIsP1 : Bool) :
    RenameResult × RenameResult × ClaimFS :=
  if firstIsP1 then
    let r1 := renameStep name fs
    let r2 := renameStep name r1.2
    (r1.1, r2.1, r2.2)
  else
    let r2 := renameStep name fs
    let r1 := renameStep name r2.2
    (r1.1, r2.1, r1.2)

-- ---------------------------------------------------------------------------
-- Notions used by the statements and proofs
-- ---------------------------------------------------------------------------

/-- A frontmatter key as the orchestrator writes them: already stripped,
non-empty, without a colon, and not starting with a dash (so a written
`key: value` line can neither shift the parse nor close the block). -/
def goodKey (k : Line) : Prop :=
  stripL k = k ∧ k ≠ [] ∧ (∀ c ∈ k, c ≠ ':') ∧ k.head? ≠ some '-'

/-- A frontmatter value as the orchestrator writes them: already stripped. -/
def goodVal (v : Line) : Prop := stripL v = v

/-- The key/value a frontmatter body line contributes, when it has a colon. -/
def lineKV (line : Line) : Option (Line × Line) :=
  (splitColon line).map (fun p => (stripL p.1, stripL p.2))

/-- A canonical freshly queued descriptor as a watcher writes it:
`status: pending`, `retry_count: 0`. -/
def initialTask : List Line :=
  [("---"), ("source: file_drop"), ("original_name: report.pdf"),
   ("status: pending"), ("retry_count: 0"), ("---"), (""), ("Body text.")].map
    String.toList

/-- The payload of a queue item, when its file parses and carries one. -/
def payloadOf (it : QItem) : Option Line :=
  match it.read with
  | ItemRead.payload p => some p
  | _ => none

/-- Does `flush_offline_queue` leave this file on disk? Everything except a
payload the handler accepts. -/
def keepsItem (handler : Line → Option Bool) (it : QItem) : Bool :=
  match it.read with
  | ItemRead.payload p => !(handler p == some true)
  | _ => true

/-- Does `flush_offline_queue` count this file as a failure? A present payload
the handler rejects or raises on, or a parsed item without a payload. -/
def failsItem (handler : Line → Option Bool) (it : QItem) : Bool :=
  match it.read with
  | ItemRead.badJson => false
  | ItemRead.noPayload => true
  | ItemRead.payload p => !(handler p == some true)

instance goodKeyDecidable (k : Line) : Decidable (goodKey k) := by
  unfold goodKey
  infer_instance

instance goodValDecidable (v : Line) : Decidable (goodVal v) := by
  unfold goodVal
  infer_instance

def taskAfter1 : List Line :=
  [("---"), ("source: file_drop"), ("original_name: report.pdf"),
   ("status: pending"), ("retry_count: 1"), ("---"), (""), ("Body text.")].map
    String.toList

def taskAfter2 : List Line :=
  [("---"), ("source: file_drop"), ("original_name: report.pdf"),
   ("status: pending"), ("retry_count: 2"), ("---"), (""), ("Body text.")].map
    String.toList

def quarantinedTask : List Line :=
  [("---"), ("source: file_drop"), ("original_name: report.pdf"),
   ("status: quarantined"), ("retry_count: 2"), ("reason: Failed after 3 attempts"),
   ("---"), (""), ("Body text.")].map String.toList

def witnessTask : List Line :=
  [("---"), ("source: file_drop"), ("status: in_progress"), ("retry_count: 2"),
   ("---"), ("Body.")].map String.toList

def witnessApproval : List Line :=
  [("---"), ("approval_required: true"), ("---"), ("Body.")].map String.toList

/-- A health map in which `gmail` is already down after three consecutive
failures, as `mark_failure` leaves it. -/
def downHMap : HMap :=
  [((("gmail").toList),
    { status := ("down").toList
      consecutive_failures := 3
      last_healthy := none
      last_failure := some (("T0").toList)
      last_error := some (("e").toList) })]

theorem dictGet_nil {β : Type} (k : Line) : dictGet ([] : List (Line × β)) k = none := by
  simp [dictGet]

theorem dictGet_cons {β : Type} (k1 : Line) (v1 : β) (d : List (Line × β)) (k : Line) :
    dictGet ((k1, v1) :: d) k = if k1 = k then some v1 else dictGet d k := by
  by_cases h : k1 = k
  · rw [dictGet, List.find?_cons_of_pos _ (by simpa using h)]
    simp [h]
  · rw [dictGet, List.find?_cons_of_neg _ (by simpa using h)]
    simp [h, dictGet]

theorem dictGet_insert_self {β : Type} (d : List (Line × β)) (k : Line) (v : β) :
    dictGet (dictInsert d k v) k = some v := by
  induction d with
  | nil => simp [dictInsert, dictGet_cons, dictGet_nil]
  | cons p d ih =>
    obtain ⟨k1, v1⟩ := p
    by_cases h : k1 = k
    · simp [dictInsert, h, dictGet_cons]
    · simp only [dictInsert, if_neg h]
      rw [dictGet_cons, if_neg h]
      exact ih

theorem dictGet_insert_ne {β : Type} (d : List (Line × β)) (k k1 : Line) (v : β)
    (h : k1 ≠ k) : dictGet (dictInsert d k v) k1 = dictGet d k1 := by
  induction d with
  | nil => simp [dictInsert, dictGet_cons, dictGet_nil, Ne.symm h]
  | cons p d ih =>
    obtain ⟨k2, v2⟩ := p
    by_cases h2 : k2 = k
    · subst h2
      simp [dictInsert, dictGet_cons, Ne.symm h]
    · simp only [dictInsert, if_neg h2]
      rw [dictGet_cons, dictGet_cons]
      by_cases h3 : k2 = k1
      · simp [h3]
      · simp [h3, ih]

theorem dictGet_mem {β : Type} {d : List (Line × β)} {k : Line} {v : β}
    (h : dictGet d k = some v) : (k, v) ∈ d := by
  induction d with
  | nil => simp [dictGet_nil] at h
  | cons p d ih =>
    obtain ⟨k1, v1⟩ := p
    rw [dictGet_cons] at h
    by_cases h1 : k1 = k
    · rw [if_pos h1] at h
      subst h1
      simp at h
      simp [h]
    · rw [if_neg h1] at h
      exact List.mem_cons_of_mem _ (ih h)

theorem dropWhile_eq_self_of_stripL {v : Line} (h : stripL v = v) :
    v.dropWhile isWS = v := by
  have hle : (v.dropWhile isWS).length ≤ v.length :=
    (@List.dropWhile_suffix _ v isWS).length_le
  have h1 : v.length ≤ (v.dropWhile isWS).length := by
    conv_lhs => rw [← h]
    unfold stripL
    rw [List.length_reverse]
    calc (List.dropWhile isWS (v.dropWhile isWS).reverse).length
        ≤ (v.dropWhile isWS).reverse.length :=
          (@List.dropWhile_suffix _ ((v.dropWhile isWS).reverse) isWS).length_le
      _ = (v.dropWhile isWS).length := List.length_reverse _
  exact (List.dropWhile_suffix isWS).eq_of_length (le_antisymm hle h1)

theorem stripL_ws_cons {c : Char} {v : Line} (hc : isWS c = true) (h : stripL v = v) :
    stripL (c :: v) = v := by
  have hd : (c :: v).dropWhile isWS = v.dropWhile isWS := by
    simp [List.dropWhile, hc]
  have hdv : v.dropWhile isWS = v := dropWhile_eq_self_of_stripL h
  unfold stripL
  rw [hd, hdv]
  conv_rhs => rw [← h]
  unfold stripL
  rw [hdv]

theorem splitColon_append {k : Line} (r : Line) (hk : ∀ c ∈ k, c ≠ ':') :
    splitColon (k ++ ':' :: r) = some (k, r) := by
  induction k with
  | nil => simp [splitColon]
  | cons c cs ih =>
    have hc : c ≠ ':' := hk c (by simp)
    simp only [List.cons_append, splitColon, if_neg hc, List.append_eq]
    rw [ih (fun x hx => hk x (by simp [hx]))]
    rfl

theorem lineKV_written {k v : Line} (hk : goodKey k) (hv : goodVal v) :
    lineKV (k ++ (": ").toList ++ v) = some (k, v) := by
  obtain ⟨hks, hkne, hkc, hkd⟩ := hk
  have h2 : (": ").toList = [':', ' '] := by decide
  have h3 : k ++ (": ").toList ++ v = k ++ ':' :: (' ' :: v) := by
    rw [h2, List.append_assoc]
    rfl
  unfold lineKV
  rw [h3, splitColon_append _ hkc]
  simp only [Option.map_some']
  rw [hks, stripL_ws_cons (by decide) hv]

theorem splitAtClose_eq {ls a r : List Line} {c : Line}
    (h : splitAtClose ls = some (a, c, r)) :
    ls = a ++ c :: r ∧ (∀ l ∈ a, isClose l = false) ∧ isClose c = true := by
  induction ls generalizing a with
  | nil => simp [splitAtClose] at h
  | cons l ls ih =>
    rw [splitAtClose] at h
    by_cases hc : isClose l = true
    · rw [if_pos hc] at h
      have h2 : ([] : List Line) = a ∧ l = c ∧ ls = r := by
        injection h with h3
        injection h3 with h4 h5
        injection h5 with h6 h7
        exact ⟨h4, h6, h7⟩
      obtain ⟨ha, hcc, hr⟩ := h2
      subst ha; subst hcc; subst hr
      refine ⟨rfl, by simp, hc⟩
    · rw [if_neg hc] at h
      cases hsp : splitAtClose ls with
      | none => rw [hsp] at h; cases h
      | some t =>
        obtain ⟨a1, c1, r1⟩ := t
        rw [hsp] at h
        have h2 : l :: a1 = a ∧ c1 = c ∧ r1 = r := by
          injection h with h3
          injection h3 with h4 h5
          injection h5 with h6 h7
          exact ⟨h4, h6, h7⟩
        obtain ⟨ha, hcc, hr⟩ := h2
        subst ha; subst hcc; subst hr
        obtain ⟨he, hna, hcl⟩ := ih hsp
        refine ⟨by rw [he]; rfl, ?_, hcl⟩
        intro x hx
        rcases List.mem_cons.mp hx with rfl | hx2
        · exact Bool.eq_false_iff.mpr hc
        · exact hna x hx2

theorem splitAtClose_append {a : List Line} {c : Line} (r : List Line)
    (ha : ∀ l ∈ a, isClose l = false) (hc : isClose c = true) :
    splitAtClose (a ++ c :: r) = some (a, c, r) := by
  induction a with
  | nil => simp [splitAtClose, hc]
  | cons l a ih =>
    have hl : isClose l = false := ha l (by simp)
    rw [List.cons_append, splitAtClose, if_neg (by simp [hl]),
      ih (fun x hx => ha x (by simp [hx]))]
    rfl

theorem isClose_iff {l : Line} : isClose l = true ↔ l.take 3 = dashes := by
  simp [isClose]

theorem isClose_dashes_append (x : Line) : isClose (dashes ++ x) = true := by
  rw [isClose_iff]
  rfl

theorem not_isClose_written {k v : Line} (hk : goodKey k) :
    isClose (k ++ (": ").toList ++ v) = false := by
  obtain ⟨hks, hkne, hkc, hkd⟩ := hk
  cases k with
  | nil => exact absurd rfl hkne
  | cons c k1 =>
    have hcd : c ≠ '-' := by
      intro hcc
      exact hkd (by simp [hcc])
    rw [Bool.eq_false_iff]
    intro hcl
    rw [isClose_iff] at hcl
    rw [List.cons_append, List.cons_append, List.take_succ_cons] at hcl
    have : c = '-' := (List.cons.injEq .. |>.mp hcl).1
    exact hcd this

theorem matchFM_parts {content : List Line} {fl rest : List Line} {cl : Line}
    (h : matchFM content = some (fl, cl, rest)) :
    (∀ l ∈ fl, isClose l = false) ∧ isClose cl = true := by
  cases content with
  | nil => simp [matchFM] at h
  | cons first r0 =>
    rw [matchFM] at h
    by_cases ho : isOpen first = true
    · rw [if_pos ho] at h
      exact ⟨(splitAtClose_eq h).2.1, (splitAtClose_eq h).2.2⟩
    · rw [if_neg ho] at h
      cases h

theorem rewriteLines_fst (u : FM) (ls : List Line) :
    (rewriteLines u ls).1 = ls.map (fun l => (rewriteLine u l).1) := by
  induction ls with
  | nil => rfl
  | cons l ls ih =>
    rw [rewriteLines]
    cases hrw : rewriteLine u l with
    | mk a b =>
      cases b with
      | none => simp only [List.map_cons, ← ih, hrw]
      | some k => simp only [List.map_cons, ← ih, hrw]

theorem rewriteLines_snd (u : FM) (ls : List Line) :
    (rewriteLines u ls).2 = ls.filterMap (fun l => (rewriteLine u l).2) := by
  induction ls with
  | nil => rfl
  | cons l ls ih =>
    rw [rewriteLines, List.filterMap_cons]
    cases hrw : rewriteLine u l with
    | mk a b =>
      cases b with
      | none => simp only [← ih, hrw]
      | some k => simp only [← ih, hrw]

theorem parseFMLine_eq (d : FM) (l : Line) :
    parseFMLine d l = match lineKV l with
      | none => d
      | some p => dictInsert d p.1 p.2 := by
  rw [parseFMLine, lineKV]
  cases splitColon l with
  | none => rfl
  | some p => rfl

theorem fmOfLines_get {k v : Line} (ls : List Line) (d : FM)
    (hall : ∀ line ∈ ls, ∀ p, lineKV line = some p → p.1 = k → p.2 = v)
    (hex : (∃ line ∈ ls, ∃ p, lineKV line = some p ∧ p.1 = k) ∨ dictGet d k = some v) :
    dictGet (ls.foldl parseFMLine d) k = some v := by
  induction ls generalizing d with
  | nil =>
    rcases hex with ⟨line, hmem, _⟩ | hd
    · simp at hmem
    · simpa using hd
  | cons l ls ih =>
    rw [List.foldl_cons, parseFMLine_eq]
    cases hkv : lineKV l with
    | none =>
      apply ih
      · intro line hline p hp hpk
        exact hall line (by simp [hline]) p hp hpk
      · rcases hex with ⟨line, hmem, p, hp, hpk⟩ | hd
        · rcases List.mem_cons.mp hmem with rfl | hmem2
          · rw [hkv] at hp; cases hp
          · exact Or.inl ⟨line, hmem2, p, hp, hpk⟩
        · exact Or.inr hd
    | some p =>
      obtain ⟨pk, pv⟩ := p
      by_cases hpk : pk = k
      · subst hpk
        have hv : pv = v := hall l (by simp) (pk, pv) hkv rfl
        subst hv
        apply ih
        · intro line hline q hq hqk
          exact hall line (by simp [hline]) q hq hqk
        · exact Or.inr (dictGet_insert_self d pk pv)
      · apply ih
        · intro line hline q hq hqk
          exact hall line (by simp [hline]) q hq hqk
        · rcases hex with ⟨line, hmem, q, hq, hqk⟩ | hd
          · rcases List.mem_cons.mp hmem with rfl | hmem2
            · rw [hkv] at hq
              injection hq with hq2
              rw [← hq2] at hqk
              exact absurd hqk hpk
            · exact Or.inl ⟨line, hmem2, q, hq, hqk⟩
          · exact Or.inr (by rw [dictGet_insert_ne d pk k pv (Ne.symm hpk)]; exact hd)

theorem lineKV_keyOfLine {l : Line} {p : Line × Line} (h : lineKV l = some p) :
    keyOfLine l = some p.1 := by
  rw [lineKV] at h
  rw [keyOfLine]
  cases hs : splitColon l with
  | none => rw [hs] at h; cases h
  | some q =>
    rw [hs] at h
    injection h with h2
    rw [← h2]
    rfl

theorem keyOfLine_lineKV {l : Line} {k0 : Line} (h : keyOfLine l = some k0) :
    ∃ w, lineKV l = some (k0, w) := by
  rw [keyOfLine] at h
  cases hs : splitColon l with
  | none => rw [hs] at h; cases h
  | some q =>
    rw [hs] at h
    injection h with h2
    refine ⟨stripL q.2, ?_⟩
    rw [lineKV, hs]
    simp only [Option.map_some']
    rw [← h2]

theorem rewriteLine_cases (u : FM) (l0 : Line) :
    (rewriteLine u l0 = (l0, none) ∧
      (∀ k0, keyOfLine l0 = some k0 → dictGet u k0 = none)) ∨
    (∃ k0 v0, keyOfLine l0 = some k0 ∧ dictGet u k0 = some v0 ∧
      rewriteLine u l0 = (k0 ++ (": ").toList ++ v0, some k0)) := by
  cases hk : keyOfLine l0 with
  | none =>
    left
    constructor
    · simp only [rewriteLine, hk]
    · intro k0 h
      cases h
  | some k0 =>
    cases hg : dictGet u k0 with
    | none =>
      left
      constructor
      · simp only [rewriteLine, hk, hg]
      · intro k1 h
        injection h with h2
        rw [← h2]
        exact hg
    | some v0 =>
      right
      refine ⟨k0, v0, rfl, hg, ?_⟩
      simp only [rewriteLine, hk, hg]

theorem dictGet_eq_of_mem_nodup {β : Type} {d : List (Line × β)} {k : Line} {v : β}
    (hmem : (k, v) ∈ d) (hnd : (d.map Prod.fst).Nodup) : dictGet d k = some v := by
  induction d with
  | nil => simp at hmem
  | cons p d ih =>
    obtain ⟨k1, v1⟩ := p
    rw [dictGet_cons]
    rcases List.mem_cons.mp hmem with heq | hmem2
    · injection heq with h1 h2
      subst h1; subst h2
      simp
    · have hk1 : k1 ≠ k := by
        intro hcc
        subst hcc
        rw [List.map_cons, List.nodup_cons] at hnd
        exact hnd.1 (List.mem_map.mpr ⟨(k1, v), hmem2, rfl⟩)
      rw [if_neg hk1]
      apply ih hmem2
      rw [List.map_cons, List.nodup_cons] at hnd
      exact hnd.2

/-- The central write/read fact: after `_update_frontmatter` on a file with a
frontmatter block, `_read_frontmatter` sees every updated key with its new value. -/
theorem update_read {content : List Line} {updates : FM}
    {fl rest : List Line} {cl : Line}
    (hm : matchFM content = some (fl, cl, rest))
    (hg : ∀ kv ∈ updates, goodKey kv.1 ∧ goodVal kv.2)
    (hnd : (updates.map Prod.fst).Nodup)
    {k v : Line} (hkv : dictGet updates k = some v) :
    dictGet (read_frontmatter (update_frontmatter content updates)) k = some v := by
  have hparts := matchFM_parts hm
  set newL := (rewriteLines updates fl).1 with hnewL
  set ks := (rewriteLines updates fl).2 with hks
  set extras := (updates.filter (fun kv => !(ks.contains kv.1))).map
    (fun kv => kv.1 ++ (": ").toList ++ kv.2) with hextras
  have hupd : update_frontmatter content updates =
      dashes :: (newL ++ extras) ++ (dashes ++ cl.drop 3) :: rest := by
    simp only [update_frontmatter, hm]
  have hnoclose : ∀ l ∈ newL ++ extras, isClose l = false := by
    intro l hl
    rcases List.mem_append.mp hl with hl1 | hl2
    · rw [hnewL, rewriteLines_fst] at hl1
      obtain ⟨l0, hl0, he⟩ := List.mem_map.mp hl1
      rcases rewriteLine_cases updates l0 with ⟨heq, _⟩ | ⟨k0, v0, hk0, hg0, heq⟩
      · rw [heq] at he
        rw [← he]
        exact hparts.1 l0 hl0
      · rw [heq] at he
        rw [← he]
        exact not_isClose_written (hg _ (dictGet_mem hg0)).1
    · obtain ⟨kv, hkvmem, he⟩ := List.mem_map.mp hl2
      have hkvu : kv ∈ updates := List.mem_of_mem_filter hkvmem
      rw [← he]
      exact not_isClose_written (hg _ hkvu).1
  have hm2 : matchFM (update_frontmatter content updates) =
      some (newL ++ extras, dashes ++ cl.drop 3, rest) := by
    rw [hupd]
    have hred : matchFM (dashes :: (newL ++ extras) ++ (dashes ++ cl.drop 3) :: rest) =
        if isOpen dashes = true then
          splitAtClose ((newL ++ extras) ++ (dashes ++ cl.drop 3) :: rest)
        else none := rfl
    rw [hred, if_pos (by decide : isOpen dashes = true)]
    exact splitAtClose_append rest hnoclose (isClose_dashes_append _)
  rw [read_frontmatter, hm2]
  apply fmOfLines_get
  · intro line hline p hp hpk
    obtain ⟨pk2, pv2⟩ := p
    rcases List.mem_append.mp hline with hl1 | hl2
    · rw [hnewL, rewriteLines_fst] at hl1
      obtain ⟨l0, hl0, he⟩ := List.mem_map.mp hl1
      rcases rewriteLine_cases updates l0 with ⟨heq, hnone⟩ | ⟨k0, v0, hk0, hg0, heq⟩
      · rw [heq] at he
        rw [← he] at hp
        have := hnone pk2 (by simpa using lineKV_keyOfLine hp)
        simp only at hpk
        rw [hpk] at this
        rw [this] at hkv
        cases hkv
      · rw [heq] at he
        rw [← he] at hp
        have hgk := hg _ (dictGet_mem hg0)
        rw [lineKV_written hgk.1 hgk.2] at hp
        injection hp with hp2
        injection hp2 with hq1 hq2
        simp only at hpk hq1 hq2 ⊢
        rw [hq1, hpk] at hg0
        rw [hg0] at hkv
        injection hkv with h3
        rw [← hq2]
        exact h3
    · obtain ⟨kv, hkvmem, he⟩ := List.mem_map.mp hl2
      have hkvu : kv ∈ updates := List.mem_of_mem_filter hkvmem
      have hgk := hg _ hkvu
      rw [← he, lineKV_written hgk.1 hgk.2] at hp
      injection hp with hp2
      injection hp2 with hq1 hq2
      obtain ⟨ka, va⟩ := kv
      simp only at hpk hq1 hq2 hkvu ⊢
      rw [hq1, hpk] at hkvu
      rw [hq2] at hkvu
      have hgv := dictGet_eq_of_mem_nodup hkvu hnd
      rw [hgv] at hkv
      exact Option.some.inj hkv
  · left
    by_cases hcont : ks.contains k = true
    · have hkin : k ∈ ks := by simpa using hcont
      rw [hks, rewriteLines_snd] at hkin
      obtain ⟨l0, hl0, he⟩ := List.mem_filterMap.mp hkin
      rcases rewriteLine_cases updates l0 with ⟨heq, _⟩ | ⟨k0, v0, hk0, hg0, heq⟩
      · rw [heq] at he
        cases he
      · rw [heq] at he
        simp only at he
        injection he with he2
        rw [he2] at hg0
        rw [hg0] at hkv
        injection hkv with he3
        refine ⟨k ++ (": ").toList ++ v, ?_, (k, v), ?_, rfl⟩
        · apply List.mem_append.mpr
          left
          rw [hnewL, rewriteLines_fst]
          refine List.mem_map.mpr ⟨l0, hl0, ?_⟩
          rw [heq]
          simp only
          rw [he2, he3]
        · have hgk := hg _ (dictGet_mem hg0)
          simp only at hgk
          rw [he3] at hgk
          exact lineKV_written hgk.1 hgk.2
    · have hkvu : (k, v) ∈ updates := dictGet_mem hkv
      have hgk := hg _ hkvu
      refine ⟨k ++ (": ").toList ++ v, ?_, (k, v), lineKV_written hgk.1 hgk.2, rfl⟩
      apply List.mem_append.mpr
      right
      rw [hextras]
      apply List.mem_map.mpr
      refine ⟨(k, v), ?_, rfl⟩
      apply List.mem_filter.mpr
      refine ⟨hkvu, ?_⟩
      simpa using hcont

theorem read_block_of_get {content : List Line} {k0 : Line} {v0 : Line}
    (h : dictGet (read_frontmatter content) k0 = some v0) :
    ∃ fl cl rest, matchFM content = some (fl, cl, rest) := by
  cases hmf : matchFM content with
  | none =>
    rw [read_frontmatter, hmf] at h
    rw [dictGet_nil] at h
    cases h
  | some t =>
    obtain ⟨fl, cl, rest⟩ := t
    exact ⟨fl, cl, rest, rfl⟩

/-- C10: a descriptor without a frontmatter block is still relocated by every
state-transition helper, but none of its fields are written: `_update_frontmatter`
returns without modifying the file, so status, retry_count and the timestamps
stay unwritten and the directory/status mirror silently breaks. -/
theorem C10_no_frontmatter_silent (content : List Line) (hasCompanion : Bool) (now : Line)
    (h : matchFM content = none) :
    (∀ updates, update_frontmatter content updates = content) ∧
    read_frontmatter content = [] ∧
    claim_file content hasCompanion =
      ⟨Dir.inProgress, content, if hasCompanion then some Dir.inProgress else none⟩ ∧
    move_to_done content hasCompanion now =
      ⟨Dir.done, content, if hasCompanion then some Dir.done else none⟩ ∧
    route_to_approval content hasCompanion now =
      ⟨Dir.pendingApproval, content, if hasCompanion then some Dir.pendingApproval else none⟩ ∧
    handle_failure content hasCompanion =
      some ⟨Dir.needsAction, content, if hasCompanion then some Dir.needsAction else none⟩ := by
  have hu : ∀ updates, update_frontmatter content updates = content := by
    intro updates
    rw [update_frontmatter, h]
  have hr : read_frontmatter content = [] := by
    rw [read_frontmatter, h]
  refine ⟨hu, hr, ?_, ?_, ?_, ?_⟩
  · rw [claim_file, hu]
  · rw [move_to_done, hu]
  · rw [route_to_approval, hu]
  · rw [handle_failure, hr]
    simp only [dictGet_nil, Option.getD_none]
    have hp : parsePyInt (("0").toList) = some 0 := by decide
    rw [hp]
    have : ¬(MAX_RETRIES ≤ 0 + 1) := by decide
    simp only [this, if_false]
    rw [hu]

/-- C3: a successfully processed task whose re-read descriptor carries
`approval_required: true` is routed to Pending_Approval (never directly to
Done), with `status: pending_approval` and an `approval_requested_at`
timestamp written into the relocated descriptor. -/
theorem C3_hitl_routing (content : List Line) (hasCompanion : Bool) (now : Line)
    (happ : dictGet (read_frontmatter content) (("approval_required").toList) =
      some (("true").toList))
    (hnow : goodVal now) :
    (run_cycle_success content hasCompanion now).dest = Dir.pendingApproval ∧
    (run_cycle_success content hasCompanion now).dest ≠ Dir.done ∧
    dictGet (read_frontmatter (run_cycle_success content hasCompanion now).newContent)
      (("approval_requested_at").toList) = some now ∧
    dictGet (read_frontmatter (run_cycle_success content hasCompanion now).newContent)
      (("status").toList) = some (("pending_approval").toList) := by
  have hhitl : evaluate_hitl content = true := by
    rw [evaluate_hitl]
    simp only [happ]
    simp
  have hrun : run_cycle_success content hasCompanion now =
      route_to_approval content hasCompanion now := by
    rw [run_cycle_success, if_pos hhitl]
  obtain ⟨fl, cl, rest, hblock⟩ := read_block_of_get happ
  have hgood : ∀ kv ∈ [((("status").toList : Line), (("pending_approval").toList : Line)),
      ((("approval_requested_at").toList : Line), now)], goodKey kv.1 ∧ goodVal kv.2 := by
    intro kv hkv
    rcases List.mem_cons.mp hkv with rfl | hkv2
    · constructor
      · show goodKey (("status").toList)
        decide
      · show goodVal (("pending_approval").toList)
        decide
    · rcases List.mem_cons.mp hkv2 with rfl | hkv3
      · refine ⟨?_, hnow⟩
        show goodKey (("approval_requested_at").toList)
        decide
      · simp at hkv3
  have hnd : (([((("status").toList : Line), (("pending_approval").toList : Line)),
      ((("approval_requested_at").toList : Line), now)]).map Prod.fst).Nodup := by
    show ([(("status").toList : Line), (("approval_requested_at").toList : Line)]).Nodup
    decide
  refine ⟨by rw [hrun]; rfl,
    by rw [hrun]; exact (by decide : Dir.pendingApproval ≠ Dir.done), ?_, ?_⟩
  · rw [hrun]
    refine update_read hblock hgood hnd ?_
    rw [dictGet_cons, if_neg (by decide), dictGet_cons, if_pos rfl]
  · rw [hrun]
    refine update_read hblock hgood hnd ?_
    rw [dictGet_cons, if_pos rfl]

theorem lifecycle_stopped (now : Line) (as : List (Option (List Line))) (st : TaskSt)
    (h : ¬(st.loc = Dir.needsAction)) : lifecycle now as (some st) = some st := by
  cases as with
  | nil => rfl
  | cons a as => rw [lifecycle, if_neg h]

-- test: concrete one-failure step with free now

theorem lifecycle_success_head (now : Line) (c : List Line)
    (rest : List (Option (List Line))) (st : TaskSt) (h : st.loc = Dir.needsAction) :
    ∃ st2, lifecycle now (some c :: rest) (some st) = some st2 ∧
      (st2.loc = Dir.pendingApproval ∨ st2.loc = Dir.done) := by
  rw [lifecycle, if_pos h]
  have hstep : cycleStep (some c) now st =
      some ⟨(run_cycle_success c false now).dest,
        (run_cycle_success c false now).newContent⟩ := rfl
  rw [hstep]
  by_cases hh : evaluate_hitl c = true
  · have hd : (run_cycle_success c false now).dest = Dir.pendingApproval := by
      rw [run_cycle_success, if_pos hh]
      rfl
    rw [lifecycle_stopped _ _ _ (by show ¬((run_cycle_success c false now).dest = _); rw [hd]; decide)]
    exact ⟨_, rfl, Or.inl hd⟩
  · have hd : (run_cycle_success c false now).dest = Dir.done := by
      rw [run_cycle_success, if_neg hh]
      rfl
    rw [lifecycle_stopped _ _ _ (by show ¬((run_cycle_success c false now).dest = _); rw [hd]; decide)]
    exact ⟨_, rfl, Or.inr hd⟩

theorem lifecycle_quarantine_iff (now : Line) (attempts : List (Option (List Line))) :
    ∃ st, lifecycle now attempts (some ⟨Dir.needsAction, initialTask⟩) = some st ∧
      (st.loc = Dir.quarantine ↔ attempts.take 3 = [none, none, none]) := by
  have hno3 : ∀ (c : List Line) (pre : List (Option (List Line)))
      (rest : List (Option (List Line))), pre.length ≤ 2 →
      ¬((pre ++ some c :: rest).take 3 = [none, none, none]) := by
    intro c pre rest hlen ht
    rcases pre with _ | ⟨p1, pre⟩
    · rw [List.nil_append,
        show ((some c :: rest).take 3) = some c :: rest.take 2 from rfl] at ht
      injection ht with h1 h2
      cases h1
    rcases pre with _ | ⟨p2, pre⟩
    · rw [List.cons_append, List.nil_append,
        show ((p1 :: some c :: rest).take 3) = p1 :: some c :: rest.take 1 from rfl] at ht
      injection ht with h1 h2
      injection h2 with h3 h4
      cases h3
    rcases pre with _ | ⟨p3, pre⟩
    · rw [List.cons_append, List.cons_append, List.nil_append,
        show ((p1 :: p2 :: some c :: rest).take 3) = [p1, p2, some c] from rfl] at ht
      injection ht with h1 h2
      injection h2 with h3 h4
      injection h4 with h5 h6
      cases h5
    · simp at hlen
  -- dispatch on the first three attempts
  rcases attempts with _ | ⟨a1, rest1⟩
  · exact ⟨_, rfl, by constructor <;> intro h <;> exact absurd h (by decide)⟩
  rcases a1 with _ | c1
  case cons.some =>
    obtain ⟨st2, he, hor⟩ := lifecycle_success_head now c1 rest1 ⟨Dir.needsAction, initialTask⟩ rfl
    refine ⟨st2, he, ?_, ?_⟩
    · intro hq
      rcases hor with h1 | h1 <;> rw [hq] at h1 <;> exact absurd h1 (by decide)
    · intro ht
      exact absurd ht (hno3 c1 [] rest1 (by decide))
  case cons.none =>
  have e1 : lifecycle now (none :: rest1) (some ⟨Dir.needsAction, initialTask⟩) =
      lifecycle now rest1 (some ⟨Dir.needsAction, taskAfter1⟩) := by
    rw [lifecycle, if_pos rfl]
    rfl
  rw [e1]
  rcases rest1 with _ | ⟨a2, rest2⟩
  · exact ⟨_, rfl, by constructor <;> intro h <;> exact absurd h (by decide)⟩
  rcases a2 with _ | c2
  case cons.some =>
    obtain ⟨st2, he, hor⟩ := lifecycle_success_head now c2 rest2 ⟨Dir.needsAction, taskAfter1⟩ rfl
    refine ⟨st2, he, ?_, ?_⟩
    · intro hq
      rcases hor with h1 | h1 <;> rw [hq] at h1 <;> exact absurd h1 (by decide)
    · intro ht
      exact absurd ht (hno3 c2 [none] rest2 (by decide))
  case cons.none =>
  have e2 : lifecycle now (none :: rest2) (some ⟨Dir.needsAction, taskAfter1⟩) =
      lifecycle now rest2 (some ⟨Dir.needsAction, taskAfter2⟩) := by
    rw [lifecycle, if_pos rfl]
    rfl
  rw [e2]
  rcases rest2 with _ | ⟨a3, rest3⟩
  · exact ⟨_, rfl, by constructor <;> intro h <;> exact absurd h (by decide)⟩
  rcases a3 with _ | c3
  case cons.some =>
    obtain ⟨st2, he, hor⟩ := lifecycle_success_head now c3 rest3 ⟨Dir.needsAction, taskAfter2⟩ rfl
    refine ⟨st2, he, ?_, ?_⟩
    · intro hq
      rcases hor with h1 | h1 <;> rw [hq] at h1 <;> exact absurd h1 (by decide)
    · intro ht
      exact absurd ht (hno3 c3 [none, none] rest3 (by decide))
  case cons.none =>
  have e3 : lifecycle now (none :: rest3) (some ⟨Dir.needsAction, taskAfter2⟩) =
      lifecycle now rest3 (some ⟨Dir.quarantine, quarantinedTask⟩) := by
    rw [lifecycle, if_pos rfl]
    rfl
  rw [e3, lifecycle_stopped _ _ _ (by decide)]
  refine ⟨_, rfl, ?_, ?_⟩
  · intro _
    rfl
  · intro _
    rfl

/-- C1: `handle_failure` reads `retry_count` (missing key = 0), increments it,
quarantines the descriptor and companion with `status: quarantined` and a
`reason` at `MAX_RETRIES` and re-queues with `status: pending` and the
incremented count below it; consequently a task is quarantined exactly when its
first `MAX_RETRIES` attempts all fail, and a success on the final allowed
attempt never quarantines. -/
theorem C1_retry_quarantine (content : List Line) (hasCompanion : Bool) (n : Int)
    (hparse : parsePyInt ((dictGet (read_frontmatter content)
      (("retry_count").toList)).getD (("0").toList)) = some n)
    (hblock : matchFM content ≠ none)
    (hval : goodVal (toString (n + 1)).toList) :
    (MAX_RETRIES ≤ n + 1 →
      ∃ r, handle_failure content hasCompanion = some r ∧
        r.dest = Dir.quarantine ∧
        r.companionDest = (if hasCompanion then some Dir.quarantine else none) ∧
        dictGet (read_frontmatter r.newContent) (("status").toList) =
          some (("quarantined").toList) ∧
        dictGet (read_frontmatter r.newContent) (("reason").toList) =
          some (("Failed after 3 attempts").toList)) ∧
    (n + 1 < MAX_RETRIES →
      ∃ r, handle_failure content hasCompanion = some r ∧
        r.dest = Dir.needsAction ∧
        r.companionDest = (if hasCompanion then some Dir.needsAction else none) ∧
        dictGet (read_frontmatter r.newContent) (("status").toList) =
          some (("pending").toList) ∧
        dictGet (read_frontmatter r.newContent) (("retry_count").toList) =
          some ((toString (n + 1)).toList)) ∧
    (∀ attempts : List (Option (List Line)), ∀ tnow : Line,
      ∃ st, lifecycle tnow attempts (some ⟨Dir.needsAction, initialTask⟩) = some st ∧
        (st.loc = Dir.quarantine ↔ attempts.take 3 = [none, none, none])) := by
  obtain ⟨fl, cl, rest, hm⟩ : ∃ fl cl rest, matchFM content = some (fl, cl, rest) := by
    cases hmf : matchFM content with
    | none => exact absurd hmf hblock
    | some t =>
      obtain ⟨fl, cl, rest⟩ := t
      exact ⟨fl, cl, rest, rfl⟩
  refine ⟨?_, ?_, fun attempts tnow => lifecycle_quarantine_iff tnow attempts⟩
  · intro h3
    rw [handle_failure, hparse]
    simp only [if_pos h3]
    refine ⟨_, rfl, rfl, rfl, ?_, ?_⟩
    · exact update_read hm
        (by
          intro kv hkv
          rcases List.mem_cons.mp hkv with rfl | hkv2
          · exact ⟨by show goodKey (("status").toList); decide,
              by show goodVal (("quarantined").toList); decide⟩
          · rcases List.mem_cons.mp hkv2 with rfl | hkv3
            · exact ⟨by show goodKey (("reason").toList); decide,
                by show goodVal (("Failed after 3 attempts").toList); decide⟩
            · simp at hkv3)
        (by
          show ([(("status").toList : Line), (("reason").toList : Line)]).Nodup
          decide)
        (by rw [dictGet_cons, if_pos rfl])
    · exact update_read hm
        (by
          intro kv hkv
          rcases List.mem_cons.mp hkv with rfl | hkv2
          · exact ⟨by show goodKey (("status").toList); decide,
              by show goodVal (("quarantined").toList); decide⟩
          · rcases List.mem_cons.mp hkv2 with rfl | hkv3
            · exact ⟨by show goodKey (("reason").toList); decide,
                by show goodVal (("Failed after 3 attempts").toList); decide⟩
            · simp at hkv3)
        (by
          show ([(("status").toList : Line), (("reason").toList : Line)]).Nodup
          decide)
        (by rw [dictGet_cons, if_neg (by decide), dictGet_cons, if_pos rfl])
  · intro hlt
    rw [handle_failure, hparse]
    simp only [if_neg (by omega : ¬(MAX_RETRIES ≤ n + 1))]
    refine ⟨_, rfl, rfl, rfl, ?_, ?_⟩
    · exact update_read hm
        (by
          intro kv hkv
          rcases List.mem_cons.mp hkv with rfl | hkv2
          · exact ⟨by show goodKey (("status").toList); decide,
              by show goodVal (("pending").toList); decide⟩
          · rcases List.mem_cons.mp hkv2 with rfl | hkv3
            · exact ⟨by show goodKey (("retry_count").toList); decide, hval⟩
            · simp at hkv3)
        (by
          show ([(("status").toList : Line), (("retry_count").toList : Line)]).Nodup
          decide)
        (by rw [dictGet_cons, if_pos rfl])
    · exact update_read hm
        (by
          intro kv hkv
          rcases List.mem_cons.mp hkv with rfl | hkv2
          · exact ⟨by show goodKey (("status").toList); decide,
              by show goodVal (("pending").toList); decide⟩
          · rcases List.mem_cons.mp hkv2 with rfl | hkv3
            · exact ⟨by show goodKey (("retry_count").toList); decide, hval⟩
            · simp at hkv3)
        (by
          show ([(("status").toList : Line), (("retry_count").toList : Line)]).Nodup
          decide)
        (by rw [dictGet_cons, if_neg (by decide), dictGet_cons, if_pos rfl])

theorem withRetryAux_ok (category : Option ErrorCategory) (component : Line)
    (behave : Nat → CallOutcome) (rand : Nat → ℚ) (a f : Nat) (v : Line)
    (hv : behave a = CallOutcome.ok v) :
    withRetryAux category component behave rand a (f + 1) =
      ⟨1, [], RetryOutcome.returned v⟩ := by
  rw [withRetryAux, hv]

theorem withRetryAux_exn (category : Option ErrorCategory) (component : Line)
    (behave : Nat → CallOutcome) (rand : Nat → ℚ) (a f : Nat) (e : Line)
    (he : behave a = CallOutcome.exn e) :
    withRetryAux category component behave rand a (f + 1) =
      (if category.getD (classify_error e) = ErrorCategory.payment then
        ⟨1, [RetryEffect.alert (_create_payment_error_alert component)],
          RetryOutcome.raisedPayment⟩
      else if category.getD (classify_error e) = ErrorCategory.auth then
        ⟨1, [RetryEffect.alert (handle_auth_error component)], RetryOutcome.raisedAuth⟩
      else if (RETRY_CONFIG (category.getD (classify_error e))).max_attempts ≤ a then
        ⟨1, [], RetryOutcome.raisedLast e⟩
      else
        ⟨(withRetryAux category component behave rand (a + 1) f).invocations + 1,
          RetryEffect.sleep a
            (min ((RETRY_CONFIG (category.getD (classify_error e))).base_delay * 2 ^ (a - 1))
              (RETRY_CONFIG (category.getD (classify_error e))).max_delay)
            (if (RETRY_CONFIG (category.getD (classify_error e))).jitter then
              (min ((RETRY_CONFIG (category.getD (classify_error e))).base_delay * 2 ^ (a - 1))
                (RETRY_CONFIG (category.getD (classify_error e))).max_delay) *
                (1 / 2 + rand a * (1 / 2))
            else
              (min ((RETRY_CONFIG (category.getD (classify_error e))).base_delay * 2 ^ (a - 1))
                (RETRY_CONFIG (category.getD (classify_error e))).max_delay)) ::
            (withRetryAux category component behave rand (a + 1) f).effects,
          (withRetryAux category component behave rand (a + 1) f).outcome⟩ : RetryResult) := by
  rw [withRetryAux, he]

/-- C2: a `with_retry` call whose failure is forced or classified as `payment`
performs exactly one invocation, writes exactly one payment alert into
Pending_Approval, raises immediately, and has no other side effect (the effect
trace contains no frontmatter write, so no descriptor's retry_count changes). -/
theorem C2_payment_no_retry (component : Line) (behave : Nat → CallOutcome)
    (rand : Nat → ℚ) (e : Line) (category : Option ErrorCategory)
    (hcat : category = some ErrorCategory.payment ∨
      (category = none ∧ classify_error e = ErrorCategory.payment))
    (h1 : behave 1 = CallOutcome.exn e) :
    with_retry category component behave rand =
      ⟨1, [RetryEffect.alert (_create_payment_error_alert component)],
        RetryOutcome.raisedPayment⟩ ∧
    (_create_payment_error_alert component).dir = Dir.pendingApproval ∧
    (∀ a f, behave a = CallOutcome.exn e →
      withRetryAux category component behave rand a (f + 1) =
        ⟨1, [RetryEffect.alert (_create_payment_error_alert component)],
          RetryOutcome.raisedPayment⟩) := by
  have hgen : ∀ a f, behave a = CallOutcome.exn e →
      withRetryAux category component behave rand a (f + 1) =
        ⟨1, [RetryEffect.alert (_create_payment_error_alert component)],
          RetryOutcome.raisedPayment⟩ := by
    intro a f ha
    rw [withRetryAux_exn category component behave rand a f e ha]
    rcases hcat with hc | ⟨hc, hcl⟩
    · subst hc
      rw [if_pos (show (some ErrorCategory.payment).getD (classify_error e) =
        ErrorCategory.payment from rfl)]
    · subst hc
      rw [if_pos (show (none : Option ErrorCategory).getD (classify_error e) =
        ErrorCategory.payment from hcl)]
  exact ⟨hgen 1 8 h1, rfl, hgen⟩

theorem withRetry_sleep_mem_aux (cat : ErrorCategory)
    (hcat : cat = ErrorCategory.transient ∨ cat = ErrorCategory.rate_limit)
    (component : Line) (behave : Nat → CallOutcome) (rand : Nat → ℚ)
    (k : Nat) (hk1 : 1 ≤ k) (hkm : k < (RETRY_CONFIG cat).max_attempts)
    (hfail : ∀ i, 1 ≤ i → i ≤ k → ∃ e, behave i = CallOutcome.exn e) :
    ∀ f a, 1 ≤ a → a ≤ k → k + 1 ≤ a + f →
      RetryEffect.sleep k
        (min ((RETRY_CONFIG cat).base_delay * 2 ^ (k - 1)) (RETRY_CONFIG cat).max_delay)
        ((min ((RETRY_CONFIG cat).base_delay * 2 ^ (k - 1))
          (RETRY_CONFIG cat).max_delay) * (1 / 2 + rand k * (1 / 2))) ∈
      (withRetryAux (some cat) component behave rand a f).effects := by
  have hpay : ¬(cat = ErrorCategory.payment) := by
    rcases hcat with rfl | rfl <;> decide
  have hauth : ¬(cat = ErrorCategory.auth) := by
    rcases hcat with rfl | rfl <;> decide
  have hjit : (RETRY_CONFIG cat).jitter = true := by
    rcases hcat with rfl | rfl <;> decide
  intro f
  induction f with
  | zero =>
    intro a h1 h2 h3
    omega
  | succ f ih =>
    intro a ha1 hak hfuel
    obtain ⟨e, he⟩ := hfail a ha1 hak
    rw [withRetryAux_exn (some cat) component behave rand a f e he]
    rw [show (some cat).getD (classify_error e) = cat from rfl]
    rw [if_neg hpay, if_neg hauth,
      if_neg (by omega : ¬((RETRY_CONFIG cat).max_attempts ≤ a)), if_pos hjit]
    show RetryEffect.sleep k _ _ ∈ RetryEffect.sleep a _ _ ::
      (withRetryAux (some cat) component behave rand (a + 1) f).effects
    by_cases hae : a = k
    · subst hae
      exact List.mem_cons_self _ _
    · exact List.mem_cons_of_mem _
        (ih (a + 1) (by omega) (by omega : a + 1 ≤ k) (by omega))

/-- C8: for the retryable categories (transient, rate_limit) and every attempt
k below the category's max_attempts, the backoff delay before attempt k+1 is
min(base_delay * 2^(k-1), max_delay); jitter is enabled and the slept delay is
that value scaled by 1/2 + rand/2, hence within [delay/2, delay]. -/
theorem C8_backoff (cat : ErrorCategory)
    (hcat : cat = ErrorCategory.transient ∨ cat = ErrorCategory.rate_limit)
    (component : Line) (behave : Nat → CallOutcome) (rand : Nat → ℚ)
    (k : Nat) (hk1 : 1 ≤ k) (hkm : k < (RETRY_CONFIG cat).max_attempts)
    (hfail : ∀ i, 1 ≤ i → i ≤ k → ∃ e, behave i = CallOutcome.exn e)
    (hr0 : 0 ≤ rand k) (hr1 : rand k < 1) :
    (RETRY_CONFIG cat).jitter = true ∧
    RetryEffect.sleep k
      (min ((RETRY_CONFIG cat).base_delay * 2 ^ (k - 1)) (RETRY_CONFIG cat).max_delay)
      ((min ((RETRY_CONFIG cat).base_delay * 2 ^ (k - 1))
        (RETRY_CONFIG cat).max_delay) * (1 / 2 + rand k * (1 / 2))) ∈
      (with_retry (some cat) component behave rand).effects ∧
    (min ((RETRY_CONFIG cat).base_delay * 2 ^ (k - 1)) (RETRY_CONFIG cat).max_delay) / 2 ≤
      (min ((RETRY_CONFIG cat).base_delay * 2 ^ (k - 1))
        (RETRY_CONFIG cat).max_delay) * (1 / 2 + rand k * (1 / 2)) ∧
    (min ((RETRY_CONFIG cat).base_delay * 2 ^ (k - 1))
      (RETRY_CONFIG cat).max_delay) * (1 / 2 + rand k * (1 / 2)) ≤
      min ((RETRY_CONFIG cat).base_delay * 2 ^ (k - 1)) (RETRY_CONFIG cat).max_delay := by
  have hjit : (RETRY_CONFIG cat).jitter = true := by
    rcases hcat with rfl | rfl <;> decide
  have hb : (0 : ℚ) ≤ (RETRY_CONFIG cat).base_delay := by
    rcases hcat with rfl | rfl <;> norm_num [RETRY_CONFIG]
  have hmx : (0 : ℚ) ≤ (RETRY_CONFIG cat).max_delay := by
    rcases hcat with rfl | rfl <;> norm_num [RETRY_CONFIG]
  have hraw0 : (0 : ℚ) ≤ min ((RETRY_CONFIG cat).base_delay * 2 ^ (k - 1))
      (RETRY_CONFIG cat).max_delay :=
    le_min (mul_nonneg hb (by positivity)) hmx
  have hk9 : k ≤ 9 := by
    rcases hcat with rfl | rfl <;> simp [RETRY_CONFIG] at hkm <;> omega
  refine ⟨hjit, ?_, ?_, ?_⟩
  · exact withRetry_sleep_mem_aux cat hcat component behave rand k hk1 hkm hfail 9 1
      le_rfl hk1 (by omega)
  · nlinarith [hraw0, hr0, hr1]
  · nlinarith [hraw0, hr0, hr1]

theorem runHealth_failures_alerts (component excMsg now : Line) :
    ∀ (k : Nat) (m : HMap) (j : Nat),
      ((dictGet m component).map (fun rec => rec.consecutive_failures)).getD 0 = j →
      (runHealth component now (List.replicate k (HEvent.failure excMsg)) m).2.1 =
        if j < 3 ∧ 3 ≤ j + k then 1 else 0 := by
  intro k
  induction k with
  | zero =>
    intro m j hj
    rw [List.replicate, runHealth]
    rw [if_neg (by omega)]
  | succ k ih =>
    intro m j hj
    rw [List.replicate_succ, runHealth]
    simp only
    rw [ComponentHealth.mark_failure, hj]
    have hrec := ih (dictInsert m component
      { status := if 3 ≤ j + 1 then ("down").toList else ("degraded").toList
        consecutive_failures := j + 1
        last_healthy := none
        last_failure := some now
        last_error := some (excMsg.take 200) }) (j + 1)
      (by rw [dictGet_insert_self]; rfl)
    rw [hrec]
    split_ifs <;>
      first
      | omega
      | (simp only [decide_eq_true_eq] at *; omega)

/-- C4: from any prior per-component counter value j, a recorded failure
increments the counter to j + 1, the resulting status is down exactly when
j + 1 reaches 3, and the component-down alert fires exactly when j + 1 equals 3
(so never on the fourth or later consecutive failures); a run of k consecutive
failures from counter j raises exactly one alert when the counter crosses 3
during the run and none otherwise; and a success resets the counter to zero,
sets healthy, and reports a recovery exactly when the component was down. -/
theorem C4_component_health (m : HMap) (component excMsg now : Line) (j k : Nat)
    (hj : ((dictGet m component).map (fun rec => rec.consecutive_failures)).getD 0 = j) :
    (∃ rec, dictGet (ComponentHealth.mark_failure m component excMsg now).1 component =
        some rec ∧
      rec.consecutive_failures = j + 1 ∧
      (rec.status = ("down").toList ↔ 3 ≤ j + 1) ∧
      ((ComponentHealth.mark_failure m component excMsg now).2 = true ↔ j + 1 = 3)) ∧
    ((runHealth component now (List.replicate k (HEvent.failure excMsg)) m).2.1 =
      if j < 3 ∧ 3 ≤ j + k then 1 else 0) ∧
    (∃ rec, dictGet (ComponentHealth.mark_healthy m component now).1 component = some rec ∧
      rec.status = ("healthy").toList ∧
      rec.consecutive_failures = 0 ∧
      ((ComponentHealth.mark_healthy m component now).2 = true ↔
        (dictGet m component).map (fun rec => rec.status) = some (("down").toList))) := by
  refine ⟨?_, ?_, ?_⟩
  · rw [ComponentHealth.mark_failure, hj]
    refine ⟨_, dictGet_insert_self m component _, rfl, ?_, ?_⟩
    · by_cases h3 : 3 ≤ j + 1
      · rw [if_pos h3]
        simp only [h3, iff_true]
      · rw [if_neg h3]
        constructor
        · intro hd
          have hdd : (("degraded").toList : Line) = ("down").toList := hd
          exact absurd hdd (by decide)
        · intro hd
          exact absurd hd h3
    · simp
  · exact runHealth_failures_alerts component excMsg now k m j hj
  · rw [ComponentHealth.mark_healthy]
    refine ⟨_, dictGet_insert_self m component _, rfl, rfl, ?_⟩
    simp

theorem ralphMaxIters_some (N : Nat) (h : 1 ≤ N) (t : Line) :
    ralphMaxIters (some N) t = N := by
  cases N with
  | zero => omega
  | succ n => rfl

theorem ralph_foldl_stopped (invoke : Nat → Bool × Line) (promise : Line)
    (wg : Option Line) (gs : Nat → List Line) (l : List Nat) (s : LoopSt)
    (hs : s.completed = true) :
    l.foldl (ralphStep invoke promise wg gs) s = s := by
  induction l with
  | nil => rfl
  | cons a l ih =>
    rw [List.foldl_cons, show ralphStep invoke promise wg gs s a = s from by
      rw [ralphStep, if_pos hs]]
    exact ih

theorem ralphStep_go (invoke : Nat → Bool × Line) (promise : Line)
    (wg : Option Line) (gs : Nat → List Line) (s : LoopSt) (a : Nat)
    (hs : s.completed = false)
    (hc : _check_completion (invoke a).2 promise wg (gs a) = false) :
    ralphStep invoke promise wg gs s a =
      ⟨s.invocations + 1, s.saved ++ [a], a, false, (invoke a).2⟩ := by
  rw [ralphStep, if_neg (by rw [hs]; decide)]
  simp only
  rw [if_neg (by rw [hc]; decide)]
  rw [← hs]

theorem ralphStep_complete (invoke : Nat → Bool × Line) (promise : Line)
    (wg : Option Line) (gs : Nat → List Line) (s : LoopSt) (a : Nat)
    (hs : s.completed = false)
    (hc : _check_completion (invoke a).2 promise wg (gs a) = true) :
    ralphStep invoke promise wg gs s a =
      ⟨s.invocations + 1, s.saved ++ [a], a, true, (invoke a).2⟩ := by
  rw [ralphStep, if_neg (by rw [hs]; decide)]
  simp only
  rw [if_pos hc]

theorem ralph_foldl_run (invoke : Nat → Bool × Line) (promise : Line)
    (wg : Option Line) (gs : Nat → List Line) :
    ∀ (n a : Nat) (s : LoopSt), s.completed = false →
      (∀ i, a ≤ i → i < a + n →
        _check_completion (invoke i).2 promise wg (gs i) = false) →
      (List.range' a n).foldl (ralphStep invoke promise wg gs) s =
        ⟨s.invocations + n, s.saved ++ List.range' a n,
          if n = 0 then s.curIter else a + n - 1, false,
          if n = 0 then s.lastOutput else (invoke (a + n - 1)).2⟩ := by
  intro n
  induction n with
  | zero =>
    intro a s hs h
    show s = _
    rw [← hs]
    simp
  | succ n ih =>
    intro a s hs h
    rw [List.range'_succ, List.foldl_cons,
      ralphStep_go invoke promise wg gs s a hs (h a le_rfl (by omega)),
      ih (a + 1) _ rfl (fun i hi1 hi2 => h i (by omega) (by omega))]
    simp only [LoopSt.mk.injEq]
    refine ⟨by omega, ?_, ?_, trivial, ?_⟩
    · rw [List.append_assoc]
      simp only [List.singleton_append]
    · rw [if_neg (by omega : ¬(n + 1 = 0))]
      split_ifs <;> omega
    · rw [if_neg (by omega : ¬(n + 1 = 0))]
      by_cases h0 : n = 0
      · subst h0
        rw [if_pos rfl]
        have he : a + (0 + 1) - 1 = a := by omega
        rw [he]
      · rw [if_neg h0]
        have he : a + 1 + n - 1 = a + (n + 1) - 1 := by omega
        rw [he]

theorem range'_one_concat (a n : Nat) (h : 1 ≤ n) :
    List.range' a (n - 1) ++ [a + (n - 1)] = List.range' a n := by
  have h2 := List.range'_append a (n - 1) 1 1
  rw [Nat.one_mul] at h2
  rw [show List.range' (a + (n - 1)) 1 = [a + (n - 1)] from rfl] at h2
  rw [h2, show 1 + (n - 1) = n from by omega]

/-- C5: with max_iterations = N and a completion check that never fires, the
loop invokes the backend exactly N times, returns max_iterations_reached with
iterations_used = N and completed = false, writes one exhaustion alert and
keeps the state record; when the check first fires at iteration k <= N the
loop stops after exactly k invocations, returns completed, writes no alert and
deletes the record.  The saved list is every _save_state call's
current_iteration. -/
theorem C5_ralph_wiggum (invoke : Nat → Bool × Line) (promise : Line)
    (wg : Option Line) (gs : Nat → List Line) (N : Nat) (t : Line) (hN : 1 ≤ N) :
    ((∀ i, 1 ≤ i → i ≤ N → _check_completion (invoke i).2 promise wg (gs i) = false) →
      run_ralph_loop invoke promise wg gs (some N) t =
        ⟨N, [0] ++ List.range' 1 N ++ [N], ("max_iterations_reached").toList, N,
          false, true, false, ((invoke N).2).take 2000⟩) ∧
    (∀ k, 1 ≤ k → k ≤ N →
      (∀ i, 1 ≤ i → i < k → _check_completion (invoke i).2 promise wg (gs i) = false) →
      _check_completion (invoke k).2 promise wg (gs k) = true →
      run_ralph_loop invoke promise wg gs (some N) t =
        ⟨k, [0] ++ List.range' 1 k ++ [k], ("completed").toList, k, true, false,
          true, ((invoke k).2).take 2000⟩) := by
  constructor
  · intro hnc
    rw [run_ralph_loop, ralphMaxIters_some N hN t]
    rw [ralph_foldl_run invoke promise wg gs N 1 ⟨0, [0], 0, false, []⟩ rfl
      (fun i hi1 hi2 => hnc i hi1 (by omega))]
    rw [if_neg (by omega : ¬(N = 0)), if_neg (by omega : ¬(N = 0)),
      show 1 + N - 1 = N from by omega]
    simp only [RalphResult.mk.injEq]
    and_intros <;> first | trivial | rfl | omega
  · intro k hk1 hkN hpre hk
    rw [run_ralph_loop, ralphMaxIters_some N hN t]
    have h1e : 1 + 1 * (k - 1) = k := by omega
    have h2e : (N - k + 1) + (k - 1) = N := by omega
    have hsplit := List.range'_append 1 (k - 1) (N - k + 1) 1
    rw [h1e, h2e] at hsplit
    rw [← hsplit, List.foldl_append]
    rw [show List.range' k (N - k + 1) = k :: List.range' (k + 1) (N - k) from
      List.range'_succ _ _ _, List.foldl_cons]
    rw [ralph_foldl_run invoke promise wg gs (k - 1) 1 ⟨0, [0], 0, false, []⟩ rfl
      (fun i hi1 hi2 => hpre i hi1 (by omega))]
    rw [ralphStep_complete invoke promise wg gs _ k rfl hk]
    rw [ralph_foldl_stopped invoke promise wg gs _ _ rfl]
    have hsv : List.range' 1 (k - 1) ++ [k] = List.range' 1 k := by
      have := range'_one_concat 1 k hk1
      rw [show 1 + (k - 1) = k from by omega] at this
      exact this
    simp only [RalphResult.mk.injEq]
    and_intros <;>
      first
      | trivial
      | rfl
      | omega
      | (simp only [List.append_assoc, List.singleton_append]
         rw [← hsv]
         simp [List.append_assoc])

/-- C6's persisted record exists and is loadable at iteration 2, the stuck-file
re-drive path skips a task that has a record rather than resuming it, and a run
of the loop always starts again from iteration 1 (its save trace is 0,1,2,...). -/
theorem C6_counterexample :
    _load_state [((("stuck_FILE_X").toList : Line), 2)] (("stuck_FILE_X").toList) =
      some 2 ∧
    stuckTrigger true true = false ∧
    (run_ralph_loop (fun _ => (true, ("out").toList)) (("never").toList) none
      (fun _ => []) (some 3) (("default").toList)).saved = [0, 1, 2, 3, 3] := by
  refine ⟨by decide, rfl, by decide⟩

/-- C6 amended: the loop persists its state on every iteration (current
iteration 0 before the first invocation, then 1..N, then the final state), but
nothing resumes from a stored record: a re-run always saves 0 then 1 first,
and the stuck-file re-drive path skips any file whose record exists. -/
theorem C6_amended_no_resume (invoke : Nat → Bool × Line) (promise : Line)
    (wg : Option Line) (gs : Nat → List Line) (N : Nat) (t : Line) (hN : 1 ≤ N)
    (hnc : ∀ i, 1 ≤ i → i ≤ N → _check_completion (invoke i).2 promise wg (gs i) = false) :
    (run_ralph_loop invoke promise wg gs (some N) t).saved =
      [0] ++ List.range' 1 N ++ [N] ∧
    ((run_ralph_loop invoke promise wg gs (some N) t).saved).take 2 = [0, 1] ∧
    (∀ stale : Bool, stuckTrigger stale true = false) := by
  obtain ⟨M, rfl⟩ : ∃ M, N = M + 1 := ⟨N - 1, by omega⟩
  have hs : (run_ralph_loop invoke promise wg gs (some (M + 1)) t).saved =
      [0] ++ List.range' 1 (M + 1) ++ [M + 1] := by
    rw [run_ralph_loop, ralphMaxIters_some (M + 1) hN t]
    rw [ralph_foldl_run invoke promise wg gs (M + 1) 1 ⟨0, [0], 0, false, []⟩ rfl
      (fun i hi1 hi2 => hnc i hi1 (by omega))]
    rw [if_neg (by omega : ¬(M + 1 = 0)), show 1 + (M + 1) - 1 = M + 1 from by omega]
  refine ⟨hs, ?_, ?_⟩
  · rw [hs, List.range'_succ]
    rfl
  · intro stale
    cases stale <;> rfl

/-- C9: under the atomic-rename model of claim_file, two concurrent claim
attempts on the same task id resolve so that exactly one rename succeeds and
the other observes not-found, in either schedule; the winner owns the file. -/
theorem C9_claim_exclusive (name : Line) (fs : ClaimFS) (hmem : name ∈ fs.avail)
    (hnd : fs.avail.Nodup) (firstIsP1 : Bool) :
    (((claimRace name fs firstIsP1).1 = RenameResult.ok ∧
      (claimRace name fs firstIsP1).2.1 = RenameResult.notFound) ∨
     ((claimRace name fs firstIsP1).1 = RenameResult.notFound ∧
      (claimRace name fs firstIsP1).2.1 = RenameResult.ok)) ∧
    name ∈ (claimRace name fs firstIsP1).2.2.owned ∧
    name ∉ (claimRace name fs firstIsP1).2.2.avail := by
  have hstep1 : renameStep name fs =
      (RenameResult.ok, ⟨fs.avail.erase name, name :: fs.owned⟩) := by
    rw [renameStep, if_pos hmem]
  have hnotin : name ∉ fs.avail.erase name := by
    intro hcc
    rw [List.Nodup.mem_erase_iff hnd] at hcc
    exact hcc.1 rfl
  have hstep2 : renameStep name ⟨fs.avail.erase name, name :: fs.owned⟩ =
      (RenameResult.notFound, ⟨fs.avail.erase name, name :: fs.owned⟩) := by
    rw [renameStep, if_neg hnotin]
  cases firstIsP1
  · simp only [claimRace, Bool.false_eq_true, if_false, hstep1, hstep2]
    exact ⟨Or.inr ⟨trivial, trivial⟩, List.mem_cons_self _ _, hnotin⟩
  · simp only [claimRace, if_true, hstep1, hstep2]
    exact ⟨Or.inl ⟨trivial, trivial⟩, List.mem_cons_self _ _, hnotin⟩

theorem lexLe_total (a : Line) : ∀ b : Line, lexLe a b = true ∨ lexLe b a = true := by
  induction a with
  | nil =>
    intro b
    left
    rfl
  | cons c cs ih =>
    intro b
    cases b with
    | nil =>
      right
      rfl
    | cons d ds =>
      by_cases hcd : c = d
      · subst hcd
        rw [lexLe, if_pos rfl, lexLe, if_pos rfl]
        exact ih ds
      · rcases lt_or_gt_of_ne hcd with h | h
        · left
          rw [lexLe, if_neg hcd]
          exact decide_eq_true h
        · right
          rw [lexLe, if_neg (Ne.symm hcd)]
          exact decide_eq_true h

theorem lexLe_trans (a : Line) : ∀ b c : Line,
    lexLe a b = true → lexLe b c = true → lexLe a c = true := by
  induction a with
  | nil =>
    intro b c _ _
    rfl
  | cons x xs ih =>
    intro b c hab hbc
    cases b with
    | nil => rw [lexLe] at hab; cases hab
    | cons y ys =>
      cases c with
      | nil => rw [lexLe] at hbc; cases hbc
      | cons z zs =>
        rw [lexLe] at hab hbc ⊢
        by_cases hxy : x = y
        · subst hxy
          rw [if_pos rfl] at hab
          by_cases hxz : x = z
          · subst hxz
            rw [if_pos rfl] at hbc ⊢
            exact ih ys zs hab hbc
          · rw [if_neg hxz] at hbc ⊢
            exact hbc
        · rw [if_neg hxy] at hab
          have hlt : x < y := of_decide_eq_true hab
          by_cases hyz : y = z
          · subst hyz
            rw [if_neg hxy]
            exact decide_eq_true hlt
          · rw [if_neg hyz] at hbc
            have hlt2 : y < z := of_decide_eq_true hbc
            have hxz : x < z := lt_trans hlt hlt2
            rw [if_neg (ne_of_lt hxz)]
            exact decide_eq_true hxz

theorem flushItems_spec (handler : Line → Option Bool) (ls : List QItem) :
    flushItems handler ls =
      ⟨(ls.filter (fun it => !(keepsItem handler it))).length,
       (ls.filter (failsItem handler)).length,
       ls.filter (keepsItem handler),
       ls.filterMap payloadOf⟩ := by
  induction ls with
  | nil => rfl
  | cons it its ih =>
    rw [flushItems, ih]
    cases hread : it.read with
    | badJson =>
      simp [keepsItem, failsItem, payloadOf, hread, List.filter_cons, List.filterMap_cons]
    | noPayload =>
      simp [keepsItem, failsItem, payloadOf, hread, List.filter_cons, List.filterMap_cons]
    | payload p =>
      cases hh : handler p with
      | none =>
        simp [keepsItem, failsItem, payloadOf, hread, hh, List.filter_cons,
          List.filterMap_cons]
      | some b =>
        cases b with
        | true =>
          simp [keepsItem, failsItem, payloadOf, hread, hh, List.filter_cons,
            List.filterMap_cons]
        | false =>
          simp [keepsItem, failsItem, payloadOf, hread, hh, List.filter_cons,
            List.filterMap_cons]

/-- C7: flushing an absent or empty queue returns (0,0) and changes nothing;
in general the handler is invoked on the payloads in sorted-filename
(oldest-first) order, an item file is deleted exactly when the handler returns
true on its payload, a false or raising handler (or a missing payload) leaves
the file and counts a failure, and re-running a fully flushed queue is a
no-op. -/
theorem C7_flush (handler : Line → Option Bool) (items : List QItem) :
    flush_offline_queue false items handler = ⟨0, 0, items, []⟩ ∧
    flush_offline_queue true [] handler = ⟨0, 0, [], []⟩ ∧
    (sortByName items).Perm items ∧
    List.Sorted nameLe (sortByName items) ∧
    (flush_offline_queue true items handler).invoked =
      (sortByName items).filterMap payloadOf ∧
    (flush_offline_queue true items handler).remaining =
      (sortByName items).filter (keepsItem handler) ∧
    (flush_offline_queue true items handler).success =
      ((sortByName items).filter (fun it => !(keepsItem handler it))).length ∧
    (flush_offline_queue true items handler).failure =
      ((sortByName items).filter (failsItem handler)).length ∧
    ((∀ it ∈ items, ∃ p, it.read = ItemRead.payload p ∧ handler p = some true) →
      (flush_offline_queue true items handler).remaining = [] ∧
      flush_offline_queue true (flush_offline_queue true items handler).remaining
        handler = ⟨0, 0, [], []⟩) := by
  have hperm : (sortByName items).Perm items := List.perm_insertionSort nameLe items
  have htot : IsTotal QItem nameLe := ⟨fun a b => lexLe_total a.name b.name⟩
  have htrans : IsTrans QItem nameLe :=
    ⟨fun a b c hab hbc => lexLe_trans a.name b.name c.name hab hbc⟩
  have hsorted : List.Sorted nameLe (sortByName items) :=
    @List.sorted_insertionSort QItem nameLe _ htot htrans items
  have hflush : flush_offline_queue true items handler =
      flushItems handler (sortByName items) := rfl
  refine ⟨rfl, rfl, hperm, hsorted, ?_, ?_, ?_, ?_, ?_⟩
  · rw [hflush, flushItems_spec]
  · rw [hflush, flushItems_spec]
  · rw [hflush, flushItems_spec]
  · rw [hflush, flushItems_spec]
  · intro hall
    have hrem : (flush_offline_queue true items handler).remaining = [] := by
      rw [hflush, flushItems_spec]
      apply List.filter_eq_nil_iff.mpr
      intro it hit
      obtain ⟨p, hp, hh⟩ := hall it (hperm.mem_iff.mp hit)
      simp [keepsItem, hp, hh]
    exact ⟨hrem, by rw [hrem]; rfl⟩

theorem C1_witness :
    (handle_failure witnessTask true).map (fun r => r.dest) = some Dir.quarantine ∧
    (handle_failure witnessTask true).map
      (fun r => dictGet (read_frontmatter r.newContent) (("status").toList)) =
      some (some (("quarantined").toList)) := by
  obtain ⟨r, hr, hd, hc, hs, hre⟩ :=
    (C1_retry_quarantine witnessTask true 2 (by decide) (by decide) (by decide)).1
      (by decide)
  rw [hr]
  simp only [Option.map_some']
  exact ⟨by rw [hd], by rw [hs]⟩

theorem C2_witness :
    with_retry (some ErrorCategory.payment) (("odoo").toList)
      (fun _ => CallOutcome.exn (("boom").toList)) (fun _ => 0) =
      ⟨1, [RetryEffect.alert (_create_payment_error_alert (("odoo").toList))],
        RetryOutcome.raisedPayment⟩ :=
  (C2_payment_no_retry (("odoo").toList)
    (fun _ => CallOutcome.exn (("boom").toList)) (fun _ => 0) (("boom").toList)
    (some ErrorCategory.payment) (Or.inl rfl) rfl).1

theorem C3_witness :
    (run_cycle_success witnessApproval false (("T1").toList)).dest =
      Dir.pendingApproval ∧
    dictGet (read_frontmatter
        (run_cycle_success witnessApproval false (("T1").toList)).newContent)
      (("approval_requested_at").toList) = some (("T1").toList) := by
  have h := C3_hitl_routing witnessApproval false (("T1").toList) (by decide) (by decide)
  exact ⟨h.1, h.2.2.1⟩

theorem C4_witness :
    (runHealth (("gmail").toList) (("T").toList)
      (List.replicate 3 (HEvent.failure (("e").toList))) []).2.1 = 1 ∧
    (runHealth (("gmail").toList) (("T").toList)
      (List.replicate 2 (HEvent.failure (("e").toList))) downHMap).2.1 = 0 ∧
    (∃ rec, dictGet (ComponentHealth.mark_failure downHMap (("gmail").toList)
        (("e").toList) (("T").toList)).1 (("gmail").toList) = some rec ∧
      rec.consecutive_failures = 4 ∧ rec.status = ("down").toList) ∧
    (ComponentHealth.mark_failure downHMap (("gmail").toList) (("e").toList)
      (("T").toList)).2 = false ∧
    (ComponentHealth.mark_healthy downHMap (("gmail").toList) (("T").toList)).2 = true := by
  have h0 := C4_component_health [] (("gmail").toList) (("e").toList) (("T").toList)
    0 3 rfl
  have h3 := C4_component_health downHMap (("gmail").toList) (("e").toList)
    (("T").toList) 3 2 rfl
  refine ⟨?_, ?_, ?_, ?_, ?_⟩
  · rw [h0.2.1]
    norm_num
  · rw [h3.2.1]
    norm_num
  · obtain ⟨rec, hget, hcnt, hstat, _⟩ := h3.1
    exact ⟨rec, hget, hcnt, hstat.mpr (by omega)⟩
  · obtain ⟨rec, _, _, _, halert⟩ := h3.1
    cases hb : (ComponentHealth.mark_failure downHMap (("gmail").toList)
        (("e").toList) (("T").toList)).2 with
    | false => rfl
    | true => exact absurd (halert.mp hb) (by omega)
  · obtain ⟨rec, _, _, _, hbic⟩ := h3.2.2
    exact hbic.mpr (by decide)

theorem C5_witness :
    run_ralph_loop (fun _ => (true, ("nope").toList)) (("done").toList) none
      (fun _ => []) (some 3) (("default").toList) =
      ⟨3, [0, 1, 2, 3, 3], ("max_iterations_reached").toList, 3, false, true, false,
        ("nope").toList⟩ := by
  have h := (C5_ralph_wiggum (fun _ => (true, ("nope").toList)) (("done").toList) none
    (fun _ => []) 3 (("default").toList) (by decide)).1
    (fun i h1 h2 => by interval_cases i <;> decide)
  rw [h]
  decide

theorem C6_amended_witness :
    (run_ralph_loop (fun _ => (true, ("nope").toList)) (("done").toList) none
      (fun _ => []) (some 2) (("default").toList)).saved.take 2 = [0, 1] := by
  have h := C6_amended_no_resume (fun _ => (true, ("nope").toList)) (("done").toList)
    none (fun _ => []) 2 (("default").toList) (by decide)
    (fun i h1 h2 => by interval_cases i <;> decide)
  exact h.2.1

theorem C9_witness :
    ((claimRace (("t1").toList) ⟨[("t1").toList], []⟩ true).1 = RenameResult.ok ∧
      (claimRace (("t1").toList) ⟨[("t1").toList], []⟩ true).2.1 =
        RenameResult.notFound) ∨
    ((claimRace (("t1").toList) ⟨[("t1").toList], []⟩ true).1 =
        RenameResult.notFound ∧
      (claimRace (("t1").toList) ⟨[("t1").toList], []⟩ true).2.1 =
        RenameResult.ok) :=
  (C9_claim_exclusive (("t1").toList) ⟨[("t1").toList], []⟩ (by decide) (by decide)
    true).1

theorem C10_witness :
    claim_file [("no frontmatter here").toList] true =
      ⟨Dir.inProgress, [("no frontmatter here").toList], some Dir.inProgress⟩ ∧
    handle_failure [("no frontmatter here").toList] true =
      some ⟨Dir.needsAction, [("no frontmatter here").toList], some Dir.needsAction⟩ := by
  have h := C10_no_frontmatter_silent [("no frontmatter here").toList] true
    (("T1").toList) (by decide)
  exact ⟨h.2.2.1, h.2.2.2.2.2⟩

theorem C8_witness :
    RetryEffect.sleep 2 4 (8 / 3) ∈
      (with_retry (some ErrorCategory.transient) (("api").toList)
        (fun _ => CallOutcome.exn (("e").toList)) (fun _ => 1 / 3)).effects := by
  have h := (C8_backoff ErrorCategory.transient (Or.inl rfl) (("api").toList)
    (fun _ => CallOutcome.exn (("e").toList)) (fun _ => 1 / 3) 2 (by norm_num)
    (by decide) (fun i h1 h2 => ⟨("e").toList, rfl⟩)
    (by norm_num) (by norm_num)).2.1
  have e1 : min ((RETRY_CONFIG ErrorCategory.transient).base_delay * 2 ^ (2 - 1))
      (RETRY_CONFIG ErrorCategory.transient).max_delay = (4 : ℚ) := by
    norm_num [RETRY_CONFIG]
  rw [e1] at h
  have e2 : (4 : ℚ) * (1 / 2 + 1 / 3 * (1 / 2)) = 8 / 3 := by norm_num
  rw [e2] at h
  exact h

end Zoya
